import Mathlib

/-!
A shallow embedding of the streaming PNG decoder in `src/decoder.rs`
(`Decoder::update` / `Decoder::next_state` / `Decoder::parse_chunk` /
`Decoder::parse_ihdr`, the pull driver `decode_next`, and the row-assembling
parts of `Reader`), together with theorems checking the specification's
claims about it.

Byte streams are `List Nat` (each element a byte value; the Rust `u8` type
guarantees values < 256, taken as `% 256` where a byte is read).  Machine
integers (`u32`, `usize`) are `Nat`; none of the decoder's arithmetic can
overflow (`u32` values are assembled from four bytes, `usize` subtractions
are guarded), so plain `Nat` is exact.

The inflate primitive (`deflate::Inflater`) and the CRC-32 accumulator
(`crc::Crc32`) are external crates, not part of this repository's sources;
they are modelled from the specification's contracts (see the doc comments
on `InflaterFn` and `crcUpdate`).  The decoder is parametrised by an
arbitrary deterministic inflater so that theorems hold for every
implementation satisfying the spec's contract.
-/

/-- Chunk body buffer capacity, `CHUNCK_BUFFER_SIZE = 10*1024` in the source. -/
def CHUNCK_BUFFER_SIZE : Nat := 10 * 1024

/-- Inflate scratch output buffer size, `IMAGE_BUFFER_SIZE = 30*1024` in the source. -/
def IMAGE_BUFFER_SIZE : Nat := 30 * 1024

/-- A PNG chunk type: four bytes (`ChunkType = [u8; 4]`). -/
abbrev ChunkType := List Nat

/-- The IHDR chunk type bytes. -/
def IHDR : ChunkType := [73, 72, 68, 82]

/-- The IDAT chunk type bytes. -/
def IDAT : ChunkType := [73, 68, 65, 84]

/-- The IEND chunk type bytes. -/
def IEND : ChunkType := [73, 69, 78, 68]

/-- Modelled from the spec: the `crc` crate is not under `src/`; the spec
fixes "CRC-32 (standard polynomial 0xEDB88320 reflected) over the type and
body".  One shift-xor round of the bitwise (reflected) CRC-32. -/
def crcRound (c : Nat) : Nat :=
  if c % 2 = 1 then (c >>> 1) ^^^ 0xEDB88320 else c >>> 1

/-- Eight CRC rounds (one byte's worth). -/
def crc8 (c : Nat) : Nat :=
  crcRound (crcRound (crcRound (crcRound (crcRound (crcRound (crcRound (crcRound c)))))))

/-- Modelled from the spec: absorb one byte into the CRC-32 register. -/
def crcByte (c b : Nat) : Nat := crc8 (c ^^^ (b % 256))

/-- Modelled from the spec: the CRC-32 register value of a fresh `Crc32`
(`Crc32::new()` / `reset()`). -/
def crcFresh : Nat := 0xFFFFFFFF

/-- Modelled from the spec: absorb a byte list into the CRC-32 register
(`Crc32::update`). -/
def crcUpdate (c : Nat) (bytes : List Nat) : Nat := bytes.foldl crcByte c

/-- Modelled from the spec: the checksum read out of the register
(`Crc32::checksum`). -/
def crcChecksum (c : Nat) : Nat := c ^^^ 0xFFFFFFFF

/-- Modelled from the spec: the parsed image header (`types::Info` is not
under `src/`).  Only the fields the decoder core uses are modelled;
`colorType` is kept as its numeric value (0, 2, 3, 4 or 6). -/
structure Info where
  width : Nat
  height : Nat
  bitDepth : Nat
  colorType : Nat
  interlaced : Bool
deriving DecidableEq, Repr

/-- Modelled from the spec: channel count per color type
(1, 3, 1, 2, 4 for color types 0, 2, 3, 4, 6). -/
def Info.channels (i : Info) : Nat :=
  if i.colorType = 0 then 1
  else if i.colorType = 2 then 3
  else if i.colorType = 3 then 1
  else if i.colorType = 4 then 2
  else if i.colorType = 6 then 4
  else 0

/-- Modelled from the spec: `bytes_per_pixel = max(1, ceil(channels × bit_depth / 8))`. -/
def Info.bytesPerPixel (i : Info) : Nat :=
  max 1 ((i.channels * i.bitDepth + 7) / 8)

/-- Modelled from the spec:
`raw_row_length = 1 + ceil(channels × bit_depth × width / 8)`. -/
def Info.rawRowLength (i : Info) : Nat :=
  1 + (i.channels * i.bitDepth * i.width + 7) / 8

/-- Modelled from the spec: `Info::default()` (all-zero geometry, grayscale,
non-interlaced); `read_info` starts from it before folding in `Header` events. -/
def Info.dflt : Info := ⟨0, 0, 0, 0, false⟩

/-- The tag of the 4-byte big-endian field currently being read
(`enum U32Value`). -/
inductive U32Value where
  | Length : U32Value
  | Type : Nat → U32Value
  | Crc : ChunkType → U32Value
deriving DecidableEq, Repr

/-- The decoder's parse position (`enum State`).  `Signature i sig` keeps the
seven-byte scratch array exactly as the source's `Signature(u8, [u8; 7])`. -/
inductive State where
  | Signature : Nat → List Nat → State
  | U32Byte3 : U32Value → Nat → State
  | U32Byte2 : U32Value → Nat → State
  | U32Byte1 : U32Value → Nat → State
  | U32 : U32Value → State
  | ReadChunk : Nat → ChunkType → Bool → State
  | PartialChunk : Nat → ChunkType → State
  | DecodeData : Nat → ChunkType → Nat → State
deriving DecidableEq, Repr

/-- A decoding event (`enum Decoded`).  `ImageData` carries the produced
bytes (the Rust value is a borrowed slice into the scratch buffer). -/
inductive Decoded where
  | Nothing : Decoded
  | Header : Nat → Nat → Nat → Nat → Bool → Decoded
  | ChunkBegin : Nat → ChunkType → Decoded
  | ChunkComplete : Nat → ChunkType → Decoded
  | ImageData : List Nat → Decoded
  | ImageEnd : Decoded
deriving DecidableEq, Repr

/-- Decoding errors (`enum DecodingError`).  The `io::Error` payload is
dropped; `Format` keeps the human-readable message. -/
inductive DecodingError where
  | IoError : DecodingError
  | Format : String → DecodingError
  | InvalidSignature : DecodingError
  | CrcMismatch : Nat → Nat → Nat → ChunkType → DecodingError
  | CorruptFlateStream : DecodingError
deriving DecidableEq, Repr

/-- Modelled from the spec: the resumable inflate primitive
(`deflate::Inflater` is not under `src/`).  A deterministic inflater's
reply is a function of its call history (each past call's input window and
output capacity) and the current input window and output capacity; it
returns `(stream_done, n_input_consumed, output_written)`.  The decoder
stores the history, so any conforming implementation can be plugged in. -/
def InflaterFn : Type :=
  List (List Nat × Nat) → List Nat → Nat → Bool × Nat × List Nat

/-- The spec's contract for the inflate primitive: it consumes at most the
input it is given and writes at most the output capacity. -/
def Conforming (inf : InflaterFn) : Prop :=
  ∀ h input cap, (inf h input cap).2.1 ≤ input.length ∧ (inf h input cap).2.2.length ≤ cap

/-- The decoder's owned state (`struct Decoder`).  `crc`/`cbuf` are the two
halves of `current_chunk`; `ihist` is the inflater session (its call
history, see `InflaterFn`); `imageDataLen` is the length of the scratch
output buffer `image_data` (its contents are produced by the inflater and
never re-read by the decoder, so only the length is kept). -/
structure Decoder where
  state : Option State
  crc : Nat
  cbuf : List Nat
  ihist : List (List Nat × Nat)
  imageDataLen : Nat
  rowRemaining : Nat
  info : Option Info
deriving DecidableEq, Repr

/-- `Decoder::new()`. -/
def Decoder.new : Decoder :=
  { state := some (.Signature 0 [0, 0, 0, 0, 0, 0, 0])
    crc := crcFresh
    cbuf := []
    ihist := []
    imageDataLen := IMAGE_BUFFER_SIZE
    rowRemaining := 0
    info := none }

/-- Modelled from the spec: big-endian multi-byte reads (`read_be` comes from
`traits.rs`, not under `src/`; the spec fixes "4-byte big-endian length",
"all integers big-endian").  Returns the value and the remaining bytes, or
the I/O error `read_be` produces when the buffer is too short. -/
def readBeU32 : List Nat → Except DecodingError (Nat × List Nat)
  | b0 :: b1 :: b2 :: b3 :: rest =>
    .ok (b0 * 16777216 + b1 * 65536 + b2 * 256 + b3, rest)
  | _ => .error .IoError

/-- Modelled from the spec: a single-byte `read_be`. -/
def readU8 : List Nat → Except DecodingError (Nat × List Nat)
  | b :: rest => .ok (b, rest)
  | _ => .error .IoError

/-- Modelled from the spec: `ColorType`'s `FromPrimitive` instance
(`types.rs` is not under `src/`; the spec fixes color types {0,2,3,4,6}). -/
def colorTypeFromU8 (n : Nat) : Option Nat :=
  if n = 0 ∨ n = 2 ∨ n = 3 ∨ n = 4 ∨ n = 6 then some n else none

/-- `Decoder::parse_ihdr`: reads the 13 IHDR body fields from the chunk
buffer, validating color type, compression method, filter method and
interlace method, then stores the `Info` and returns the `Header` event. -/
def parseIhdr (d : Decoder) : Except DecodingError (Decoder × Decoded) :=
  match readBeU32 d.cbuf with
  | .error e => .error e
  | .ok (width, r1) =>
  match readBeU32 r1 with
  | .error e => .error e
  | .ok (height, r2) =>
  match readU8 r2 with
  | .error e => .error e
  | .ok (bitDepth, r3) =>
  match readU8 r3 with
  | .error e => .error e
  | .ok (colorByte, r4) =>
  match colorTypeFromU8 colorByte with
  | none => .error (.Format ("invalid color type (" ++ toString colorByte ++ ")"))
  | some colorType =>
  match readU8 r4 with
  | .error e => .error e
  | .ok (comp, r5) =>
  if comp ≠ 0 then .error (.Format ("unknown compression method (" ++ toString comp ++ ")"))
  else
  match readU8 r5 with
  | .error e => .error e
  | .ok (filt, r6) =>
  if filt ≠ 0 then .error (.Format ("unknown filter method (" ++ toString filt ++ ")"))
  else
  match readU8 r6 with
  | .error e => .error e
  | .ok (il, _) =>
  if il = 0 then
    let info : Info :=
      { width := width, height := height, bitDepth := bitDepth
        colorType := colorType, interlaced := false }
    .ok ({ d with info := some info },
         .Header width height bitDepth colorType false)
  else if il = 1 then
    let info : Info :=
      { width := width, height := height, bitDepth := bitDepth
        colorType := colorType, interlaced := true }
    .ok ({ d with info := some info },
         .Header width height bitDepth colorType true)
  else .error (.Format ("unknown interlace method (" ++ toString il ++ ")"))

/-- `Decoder::parse_chunk`: parse a completed chunk body (`IHDR` is parsed,
every other type is skipped); the follow-up state is always `U32(Crc type)`. -/
def parseChunk (d : Decoder) (typeStr : ChunkType) :
    Except DecodingError (Decoder × State × Decoded) :=
  if typeStr = IHDR then
    match parseIhdr d with
    | .error e => .error e
    | .ok (d', res) => .ok (d', .U32 (.Crc typeStr), res)
  else
    .ok (d, .U32 (.Crc typeStr), .Nothing)

/-- `Decoder::next_state`: one micro-step of the state machine.  `s` is the
state the driver took out of `d.state` (the source's `self.state.take()`);
the returned decoder has the successor state stored back.  `update` only
calls this with a non-empty `buf` (the source reads `buf[0]`
unconditionally); `headD` gives the same byte on every such call. -/
def nextState (inf : InflaterFn) (d : Decoder) (s : State) (buf : List Nat) :
    Except DecodingError (Decoder × Nat × Decoded) :=
  let currentByte := buf.headD 0 % 256
  match s with
  | .Signature i sig =>
    if i < 7 then
      .ok ({ d with state := some (.Signature (i + 1) (sig.set i currentByte)) }, 1, .Nothing)
    else if sig = [137, 80, 78, 71, 13, 10, 26] ∧ currentByte = 10 then
      .ok ({ d with state := some (.U32 .Length) }, 1, .Nothing)
    else
      .error .InvalidSignature
  | .PartialChunk remaining typeStr =>
    if typeStr = IDAT then
      .ok ({ d with state := some (.DecodeData remaining typeStr 0) }, 0, .Nothing)
    else if remaining = 0 then
      match parseChunk d typeStr with
      | .error e => .error e
      | .ok (d', st, res) => .ok ({ d' with state := some st }, 0, res)
    else
      .ok ({ d with state := some (.ReadChunk remaining typeStr true) }, 0, .Nothing)
  | .U32Byte3 ty val =>
    let val := val ||| currentByte
    match ty with
    | .Length => .ok ({ d with state := some (.U32 (.Type val)) }, 1, .Nothing)
    | .Type length =>
      let typeStr : ChunkType :=
        [(val >>> 24) % 256, (val >>> 16) % 256, (val >>> 8) % 256, val % 256]
      .ok ({ d with state := some (.ReadChunk length typeStr true),
                    crc := crcUpdate crcFresh typeStr },
           1, .ChunkBegin length typeStr)
    | .Crc typeStr =>
      if val = crcChecksum d.crc then
        .ok ({ d with state := some (.U32 .Length) }, 1,
             if typeStr = IEND then .ImageEnd else .ChunkComplete val typeStr)
      else
        .error (.CrcMismatch 1 val (crcChecksum d.crc) typeStr)
  | .U32Byte2 ty val =>
    .ok ({ d with state := some (.U32Byte3 ty (val ||| currentByte <<< 8)) }, 1, .Nothing)
  | .U32Byte1 ty val =>
    .ok ({ d with state := some (.U32Byte2 ty (val ||| currentByte <<< 16)) }, 1, .Nothing)
  | .U32 ty =>
    .ok ({ d with state := some (.U32Byte1 ty (currentByte <<< 24)) }, 1, .Nothing)
  | .ReadChunk remaining typeStr clear =>
    let cbuf := if clear then [] else d.cbuf
    if remaining > 0 then
      let bufAvail := CHUNCK_BUFFER_SIZE - cbuf.length
      let bytesAvail := min buf.length bufAvail
      let n := min remaining bytesAvail
      if bufAvail = 0 then
        .ok ({ d with state := some (.PartialChunk remaining typeStr), cbuf := cbuf },
             0, .Nothing)
      else
        let taken := buf.take n
        let left := remaining - n
        if left = 0 then
          .ok ({ d with state := some (.PartialChunk left typeStr),
                        crc := crcUpdate d.crc taken, cbuf := cbuf ++ taken },
               n, .Nothing)
        else
          .ok ({ d with state := some (.ReadChunk left typeStr false),
                        crc := crcUpdate d.crc taken, cbuf := cbuf ++ taken },
               n, .Nothing)
    else
      .ok ({ d with state := some (.U32 (.Crc typeStr)), cbuf := cbuf }, 0, .Nothing)
  | .DecodeData remaining typeStr n =>
    match (if d.rowRemaining = 0 then Option.map Info.rawRowLength d.info
           else some d.rowRemaining) with
    | none => .error (.Format "IHDR chunk missing")
    | some rowRem =>
      let m := min d.imageDataLen rowRem
      let res := inf d.ihist (d.cbuf.drop n) m
      let eofF := res.1
      let c := res.2.1
      let data := res.2.2
      let n' := n + c
      if eofF ∧ n' ≠ d.cbuf.length then
        .error .CorruptFlateStream
      else if n' = d.cbuf.length ∧ (data.length = 0 ∨ remaining ≥ 0) then
        .ok ({ d with state := some (.ReadChunk remaining typeStr true),
                      ihist := d.ihist ++ [(d.cbuf.drop n, m)],
                      rowRemaining := rowRem - data.length },
             0, .ImageData data)
      else
        .ok ({ d with state := some (.DecodeData remaining typeStr n'),
                      ihist := d.ihist ++ [(d.cbuf.drop n, m)],
                      rowRemaining := rowRem - data.length },
             0, .ImageData data)

/-- `Decoder::update`: run micro-steps until the input is exhausted, the
state is `None`, or a non-`Nothing` event is produced; returns the total
bytes consumed and the event.  The source's `while` loop is embedded with a
fuel parameter (`none` = fuel exhausted; every actual run is reached with
enough fuel, as the theorems' concrete instantiations show). -/
def updateF (inf : InflaterFn) : Nat → Decoder → List Nat →
    Option (Except DecodingError (Decoder × Nat × Decoded))
  | 0, _, _ => none
  | fuel + 1, d, buf =>
    match d.state with
    | none => some (.ok (d, 0, .Nothing))
    | some s =>
      if buf = [] then some (.ok (d, 0, .Nothing))
      else
        match nextState inf d s buf with
        | .error e => some (.error e)
        | .ok (d', n, .Nothing) =>
          match updateF inf fuel d' (buf.drop n) with
          | some (.ok (d'', m, ev)) => some (.ok (d'', n + m, ev))
          | r => r
        | .ok (d', n, ev) => some (.ok (d', n, ev))

deriving instance DecidableEq for Except

/-- The caller protocol around `update` for one input slice: call `update`
on the unconsumed remainder, collect each non-`Nothing` event, stop when
`update` reports `Nothing` (slice exhausted or state gone).  Executable,
fuel-based companion of the `FeedSlice` relation below. -/
def feedSliceF (inf : InflaterFn) : Nat → Decoder → List Nat →
    Option (Except DecodingError (Decoder × List Decoded))
  | 0, _, _ => none
  | fuel + 1, d, buf =>
    match updateF inf (fuel + 1) d buf with
    | none => none
    | some (.error e) => some (.error e)
    | some (.ok (d', _, .Nothing)) => some (.ok (d', []))
    | some (.ok (d', n, ev)) =>
      match feedSliceF inf fuel d' (buf.drop n) with
      | some (.ok (d'', evs)) => some (.ok (d'', ev :: evs))
      | r => r

/-- Feed a list of slices in order through the `feedSliceF` protocol,
collecting all events. -/
def feedSlicesF (inf : InflaterFn) (fuel : Nat) : Decoder → List (List Nat) →
    Option (Except DecodingError (Decoder × List Decoded))
  | d, [] => some (.ok (d, []))
  | d, buf :: rest =>
    match feedSliceF inf fuel d buf with
    | none => none
    | some (.error e) => some (.error e)
    | some (.ok (d', evs)) =>
      match feedSlicesF inf fuel d' rest with
      | some (.ok (d'', evs')) => some (.ok (d'', evs ++ evs'))
      | r => r

/-- The event list of a successful single-slice run (projection used by the
concrete counterexample statements). -/
def feedEvents (inf : InflaterFn) (fuel : Nat) (d : Decoder) (buf : List Nat) :
    Option (List Decoded) :=
  match feedSliceF inf fuel d buf with
  | some (.ok (_, evs)) => some evs
  | _ => none

/-- The pull driver's state: the byte source (the list of successive
non-empty `read` results it will deliver; an exhausted list means `read`
returns 0 bytes, i.e. EOF) and the unconsumed buffer window `buf[pos..end]`. -/
structure DriverSt where
  reads : List (List Nat)
  d : Decoder
  window : List Nat
deriving DecidableEq, Repr

/-- The free function `decode_next`: refill the window from the source when
it is empty, call `update`, advance, and loop until a non-`Nothing` event;
`ImageEnd` is turned into the end sentinel `none` (the source does not
advance `pos` in that arm, and neither does this embedding).  Fuel-based:
`none` = fuel exhausted, which is how the source's unbounded loop shows up. -/
def decodeNextF (inf : InflaterFn) : Nat → DriverSt →
    Option (Except DecodingError (Option Decoded × DriverSt))
  | 0, _ => none
  | fuel + 1, st =>
    let window := if st.window = [] then st.reads.headD [] else st.window
    let reads := if st.window = [] then st.reads.tail else st.reads
    match updateF inf (fuel + 1) st.d window with
    | none => none
    | some (.error e) => some (.error e)
    | some (.ok (d', n, .Nothing)) =>
      decodeNextF inf fuel { reads := reads, d := d', window := window.drop n }
    | some (.ok (d', _, .ImageEnd)) =>
      some (.ok (none, { reads := reads, d := d', window := window }))
    | some (.ok (d', n, ev)) =>
      some (.ok (some ev, { reads := reads, d := d', window := window.drop n }))

/-- The high-level `Reader` (`struct Reader`): the pull-driver state plus the
row assembler's fields.  `transform`/`processed` (output post-processing)
are outside the claims and not modelled. -/
structure PngReader where
  reads : List (List Nat)
  d : Decoder
  window : List Nat
  info : Option Info
  bpp : Nat
  rowlen : Nat
  prev : List Nat
  current : List Nat
deriving DecidableEq, Repr

/-- `Reader::new(r)`: fresh decoder, empty buffers. -/
def PngReader.new (reads : List (List Nat)) : PngReader :=
  { reads := reads, d := Decoder.new, window := []
    info := none, bpp := 0, rowlen := 0, prev := [], current := [] }

/-- Modelled from the spec: `FromPrimitive` for the per-row filter selector
(`filter.rs` is not under `src/`; the spec fixes filter types 0..4). -/
def filterFromU8 (n : Nat) : Option Nat :=
  if n ≤ 4 then some n else none

/-- Modelled from the spec: the Paeth predictor — whichever of `a`, `b`, `c`
is closest to `p = a + b − c`, ties broken in the order a, b, c. -/
def paeth (a b c : Nat) : Nat :=
  let p : Int := (a : Int) + (b : Int) - (c : Int)
  let pa := (p - (a : Int)).natAbs
  let pb := (p - (b : Int)).natAbs
  let pc := (p - (c : Int)).natAbs
  if pa ≤ pb ∧ pa ≤ pc then a else if pb ≤ pc then b else c

/-- Modelled from the spec: one output byte of the filter reverser —
`cur + term mod 256` where `term` depends on the filter type, the already
defiltered left neighbour, and the previous row. -/
def unfilterByte (ft : Nat) (x left up upleft : Nat) : Nat :=
  (match ft with
   | 0 => x
   | 1 => x + left
   | 2 => x + up
   | 3 => x + (left + up) / 2
   | _ => x + paeth left up upleft) % 256

/-- Modelled from the spec: the filter reverser's loop over a scanline,
accumulating the defiltered output (`out`) so that byte `i` can see
defiltered byte `i − bpp`. -/
def unfilterGo (ft bpp : Nat) (prev : List Nat) : Nat → List Nat → List Nat → List Nat
  | _, [], out => out
  | i, x :: rest, out =>
    let left := if bpp ≤ i then out.getD (i - bpp) 0 else 0
    let up := prev.getD i 0
    let upleft := if bpp ≤ i then prev.getD (i - bpp) 0 else 0
    unfilterGo ft bpp prev (i + 1) rest (out ++ [unfilterByte ft x left up upleft])

/-- Modelled from the spec: `filter::unfilter` (not under `src/`): reverse
filter `ft` over the filtered scanline `cur`, given the defiltered previous
scanline `prev` and the byte-per-pixel stride `bpp`. -/
def unfilterRow (ft bpp : Nat) (prev cur : List Nat) : List Nat :=
  unfilterGo ft bpp prev 0 cur []

/-- The body of `Reader::next_raw_row`'s `ImageData(data)` arm: append the
run to `current`; when a full `rowlen` is accumulated, look up the filter
byte, defilter `current[1..]` against `prev[1..]`, swap the two rows and
clear `current`, yielding the defiltered row (without the filter byte).
Returns `(emitted row, new prev, new current)`. -/
def processImageData (bpp rowlen : Nat) (prev current data : List Nat) :
    Except DecodingError (Option (List Nat) × List Nat × List Nat) :=
  let current := current ++ data
  if current.length = rowlen then
    match filterFromU8 (current.headD 0) with
    | some filter =>
      let newPrev := current.headD 0 :: unfilterRow filter bpp (prev.drop 1) (current.drop 1)
      .ok (some (newPrev.drop 1), newPrev, [])
    | none =>
      .error (.Format ("invalid filter method (" ++ toString (current.headD 0) ++ ")"))
  else
    .ok (none, prev, current)

/-- The loop of `Reader::read_info`: pull events, folding `Header` fields
into a local `Info` (started from `Info::default()`), until a
`ChunkBegin(_, IDAT)` or the end sentinel. -/
def readInfoLoop (inf : InflaterFn) : Nat → PngReader → Info →
    Option (Except DecodingError (PngReader × Info))
  | 0, _, _ => none
  | fuel + 1, r, acc =>
    match decodeNextF inf (fuel + 1) ⟨r.reads, r.d, r.window⟩ with
    | none => none
    | some (.error e) => some (.error e)
    | some (.ok (val, st)) =>
      let r' := { r with reads := st.reads, d := st.d, window := st.window }
      match val with
      | none => some (.ok (r', acc))
      | some (.Header w h b c i) =>
        readInfoLoop inf fuel r' { width := w, height := h, bitDepth := b
                                   colorType := c, interlaced := i }
      | some (.ChunkBegin _ t) =>
        if t = IDAT then some (.ok (r', acc))
        else readInfoLoop inf fuel r' acc
      | some _ => readInfoLoop inf fuel r' acc

/-- `Reader::read_info`: if the info is already cached return it; otherwise
run the event loop, then size and zero `prev`, set `bpp`/`rowlen`, and cache
the info. -/
def readInfoF (inf : InflaterFn) (fuel : Nat) (r : PngReader) :
    Option (Except DecodingError PngReader) :=
  match r.info with
  | some _ => some (.ok r)
  | none =>
    match readInfoLoop inf fuel r Info.dflt with
    | none => none
    | some (.error e) => some (.error e)
    | some (.ok (r', acc)) =>
      some (.ok { r' with bpp := acc.bytesPerPixel
                          rowlen := acc.rawRowLength
                          prev := List.replicate acc.rawRowLength 0
                          info := some acc })

/-- The loop of `Reader::next_raw_row` (after `read_info`): pull events,
feed each `ImageData` run to `processImageData`, and return the first
completed defiltered row (or the end sentinel). -/
def nextRawRowLoop (inf : InflaterFn) : Nat → PngReader →
    Option (Except DecodingError (Option (List Nat) × PngReader))
  | 0, _ => none
  | fuel + 1, r =>
    match decodeNextF inf (fuel + 1) ⟨r.reads, r.d, r.window⟩ with
    | none => none
    | some (.error e) => some (.error e)
    | some (.ok (val, st)) =>
      let r' := { r with reads := st.reads, d := st.d, window := st.window }
      match val with
      | none => some (.ok (none, r'))
      | some (.ImageData data) =>
        match processImageData r'.bpp r'.rowlen r'.prev r'.current data with
        | .error e => some (.error e)
        | .ok (some row, p, c) => some (.ok (some row, { r' with prev := p, current := c }))
        | .ok (none, p, c) => nextRawRowLoop inf fuel { r' with prev := p, current := c }
      | some _ => nextRawRowLoop inf fuel r'

/-- One `update` call of the slice-feeding protocol, as a relation: the
fuel is existential, so the relation holds of exactly the runs some fuel
completes.  `FeedSlice d buf d' evs`: feeding the single slice `buf` to
`update` repeatedly (re-entering with the unconsumed remainder after every
non-`Nothing` event) ends in decoder `d'` having produced the events `evs`. -/
inductive FeedSlice (inf : InflaterFn) : Decoder → List Nat → Decoder → List Decoded → Prop
  | last {fuel d buf d' n} :
      updateF inf fuel d buf = some (.ok (d', n, .Nothing)) →
      FeedSlice inf d buf d' []
  | step {fuel d buf d' n ev d'' evs} :
      updateF inf fuel d buf = some (.ok (d', n, ev)) →
      ev ≠ .Nothing →
      FeedSlice inf d' (buf.drop n) d'' evs →
      FeedSlice inf d buf d'' (ev :: evs)

/-- Feeding a list of slices in order, each by the `FeedSlice` protocol. -/
inductive FeedSlices (inf : InflaterFn) : Decoder → List (List Nat) → Decoder → List Decoded → Prop
  | nil {d} : FeedSlices inf d [] d []
  | cons {d buf d' evs rest d'' evs'} :
      FeedSlice inf d buf d' evs →
      FeedSlices inf d' rest d'' evs' →
      FeedSlices inf d (buf :: rest) d'' (evs ++ evs')

/-- The events a single micro-step contributes to a trace. -/
def emitted : Decoded → List Decoded
  | .Nothing => []
  | ev => [ev]

/-- The micro-step run relation: starting from `d` with the byte stream
`buf`, apply `nextState` micro-steps until the stream is exhausted (or the
state is gone), collecting the non-`Nothing` events.  `FeedSlice` runs are
exactly such micro-runs (`feedSlice_microRun` below). -/
inductive MicroRun (inf : InflaterFn) : Decoder → List Nat → Decoder → List Decoded → Prop
  | nil {d} : MicroRun inf d [] d []
  | halt {d buf} : d.state = none → MicroRun inf d buf d []
  | step {d s buf d' n ev d'' evs} :
      d.state = some s →
      buf ≠ [] →
      nextState inf d s buf = .ok (d', n, ev) →
      MicroRun inf d' (buf.drop n) d'' evs →
      MicroRun inf d buf d'' (emitted ev ++ evs)

/-- A conforming inflater for concrete runs: copy the input to the output,
clamped to the output capacity; never signals end of stream. -/
def storeInf : InflaterFn :=
  fun _ input cap => (false, min input.length cap, input.take cap)

/-- A conforming inflater that consumes its whole input and produces
nothing (as a real zlib inflater does on a partial header). -/
def nullInf : InflaterFn :=
  fun _ input _ => (false, input.length, [])

/-- Big-endian 4-byte encoding of a `u32` value. -/
def u32be (n : Nat) : List Nat :=
  [n / 16777216 % 256, n / 65536 % 256, n / 256 % 256, n % 256]

/-- The 8-byte PNG signature. -/
def pngSig : List Nat := [137, 80, 78, 71, 13, 10, 26, 10]

/-- A whole chunk: length, type, body, and correct CRC over type ++ body. -/
def mkChunk (typeStr : ChunkType) (body : List Nat) : List Nat :=
  u32be body.length ++ typeStr ++ body ++
    u32be (crcChecksum (crcUpdate crcFresh (typeStr ++ body)))

/-- A valid 13-byte IHDR body: 1×1, bit depth 8, grayscale, methods 0/0/0. -/
def ihdrBody : List Nat := [0,0,0,1, 0,0,0,1, 8, 0, 0, 0, 0]

/-- Signature plus complete IEND chunk (no IHDR — enough to reach
`ImageEnd`, since the decoder does not enforce chunk order). -/
def iendStream : List Nat := pngSig ++ mkChunk IEND []

/-- Signature, valid IHDR chunk, an IDAT chunk header plus a 1-byte body,
and one further byte (the inflate pass over the body only runs once the
next byte arrives, since `update` returns as soon as its buffer is empty). -/
def idatStream : List Nat :=
  pngSig ++ mkChunk IHDR ihdrBody ++ u32be 1 ++ IDAT ++ [120, 0]

/-- The decoder state right after `ImageEnd` on `iendStream`: the state is
`U32 Length` — not a terminal state. -/
def dAfterEnd : Decoder :=
  { state := some (.U32 .Length)
    crc := crcUpdate crcFresh IEND
    cbuf := []
    ihist := []
    imageDataLen := IMAGE_BUFFER_SIZE
    rowRemaining := 0
    info := none }

/-- Signature, IHDR length/type, the 13-byte body, and a single junk byte
(whose arrival drives the parse of the completed body) — no CRC check can
ever succeed on this stream, as only one junk byte of the CRC exists. -/
def ihdrOnlyStream : List Nat := pngSig ++ u32be 13 ++ IHDR ++ ihdrBody ++ [0]

/-- A decoder caught inside an IDAT chunk: body buffer `[7]`, cursor 0,
5 chunk-level bytes still to stream in, 3 bytes left in the current row. -/
def dDecode : Decoder :=
  { Decoder.new with
    state := some (.DecodeData 5 IDAT 0)
    cbuf := [7]
    rowRemaining := 3
    info := some ⟨1, 1, 8, 0, false⟩ }

/-- Number of `Header` events in a trace. -/
def headerCount : List Decoded → Nat
  | [] => 0
  | .Header _ _ _ _ _ :: r => 1 + headerCount r
  | _ :: r => headerCount r

/-- Total bytes of the `ImageData` events in a trace. -/
def dataBytes : List Decoded → Nat
  | [] => 0
  | .ImageData data :: r => data.length + dataBytes r
  | _ :: r => dataBytes r

/-- The row-boundary discipline over a trace: each `ImageData` run is at
most one raw row long and never crosses a multiple of `raw_row_length` in
the cumulative inflated stream (`len + cum % rrl ≤ rrl` says the run stays
inside the row that the cumulative offset `cum` is in); a `Header` event
installs the row length derived from its fields. -/
def goodDataB : Nat → Nat → List Decoded → Bool
  | _, _, [] => true
  | rrl, cum, .ImageData data :: r =>
    decide (data.length ≤ rrl) && decide (data.length + cum % rrl ≤ rrl) &&
      goodDataB rrl (cum + data.length) r
  | _, cum, .Header w h b c i :: r =>
    goodDataB (Info.rawRowLength ⟨w, h, b, c, i⟩) cum r
  | rrl, cum, _ :: r => goodDataB rrl cum r

/-- The decoder-side row invariant: before the header, no row is in
progress and nothing has been emitted; after it, `rowRemaining` never
exceeds the raw row length, and the cumulative emitted bytes plus
`rowRemaining` sit exactly on a row boundary. -/
def rowInv (d : Decoder) (cum : Nat) : Prop :=
  match d.info with
  | none => d.rowRemaining = 0 ∧ cum = 0
  | some i => d.rowRemaining ≤ i.rawRowLength ∧ (cum + d.rowRemaining) % i.rawRowLength = 0

/-- The trace-side row length currently in force (0 before any header). -/
def infoRrl (d : Decoder) : Nat :=
  match d.info with
  | none => 0
  | some i => i.rawRowLength


/-- The event trace that `feedSliceF` produces on `idatStream` (see
`imageData_length_cex`): the last event is an empty `ImageData`. -/
def idatEvs : List Decoded :=
  [.ChunkBegin 13 IHDR, .Header 1 1 8 0 false, .ChunkComplete 981375829 IHDR,
   .ChunkBegin 1 IDAT, .ImageData []]

/-- The decoder state after feeding `idatStream` with the inflater that
consumes everything and produces nothing. -/
def dIdat : Decoder :=
  { state := some (.U32Byte1 (.Crc IDAT) 0)
    crc := 2300148505
    cbuf := []
    ihist := [([120], 2)]
    imageDataLen := IMAGE_BUFFER_SIZE
    rowRemaining := 2
    info := some ⟨1, 1, 8, 0, false⟩ }


/-- Signature, a valid IHDR chunk, then the length and type of an IDAT
chunk: enough for `read_info` to see the `ChunkBegin(_, IDAT)` sentinel. -/
def c9Stream : List Nat := pngSig ++ mkChunk IHDR ihdrBody ++ u32be 1 ++ IDAT

/-- The reader state `read_info` produces on `c9Stream`: `prev` is sized to
`rowlen` and zeroed, `current` is still empty. -/
def rInfo : PngReader :=
  { reads := []
    d := { state := some (.ReadChunk 1 IDAT true)
           crc := 3394304481
           cbuf := ihdrBody
           ihist := []
           imageDataLen := IMAGE_BUFFER_SIZE
           rowRemaining := 0
           info := some ⟨1, 1, 8, 0, false⟩ }
    window := []
    info := some ⟨1, 1, 8, 0, false⟩
    bpp := 1
    rowlen := 2
    prev := [0, 0]
    current := [] }


/-! ## Helper lemmas -/


theorem updateF_nil (inf : InflaterFn) (fuel : Nat) (d : Decoder) :
    updateF inf (fuel + 1) d [] = some (.ok (d, 0, .Nothing)) := by
  cases h : d.state <;> simp [updateF, h]



theorem updateF_go (inf : InflaterFn) (fuel : Nat) (d : Decoder) (s : State) (buf : List Nat)
    (d' : Decoder) (n : Nat) (hs : d.state = some s) (hb : buf ≠ [])
    (hn : nextState inf d s buf = .ok (d', n, .Nothing)) :
    updateF inf (fuel + 1) d buf =
      (match updateF inf fuel d' (buf.drop n) with
       | some (.ok (d'', m, ev)) => some (.ok (d'', n + m, ev))
       | r => r) := by
  simp only [updateF, hs, if_neg hb, hn]
  try rfl

theorem updateF_goErr (inf : InflaterFn) (fuel : Nat) (d : Decoder) (s : State) (buf : List Nat)
    (e : DecodingError) (hs : d.state = some s) (hb : buf ≠ [])
    (hn : nextState inf d s buf = .error e) :
    updateF inf (fuel + 1) d buf = some (.error e) := by
  simp only [updateF, hs, if_neg hb, hn]



theorem crcUpdate_append (c : Nat) (xs ys : List Nat) :
    crcUpdate c (xs ++ ys) = crcUpdate (crcUpdate c xs) ys := by
  simp [crcUpdate, List.foldl_append]

theorem nextState_consume_le (inf : InflaterFn) (d : Decoder) (s : State) (buf : List Nat)
    (d' : Decoder) (n : Nat) (ev : Decoded) (hb : buf ≠ [])
    (h : nextState inf d s buf = .ok (d', n, ev)) : n ≤ buf.length := by
  have hpos : 0 < buf.length := List.length_pos.mpr hb
  cases s <;> simp only [nextState] at h <;> (repeat' split at h) <;>
    (try cases h) <;> omega

theorem nextState_split (inf : InflaterFn) (d : Decoder) (s : State) (as bs : List Nat)
    (d' : Decoder) (n : Nat) (ev : Decoded) (ha : as ≠ [])
    (h : nextState inf d s as = .ok (d', n, ev)) :
    (n ≤ as.length ∧ nextState inf d s (as ++ bs) = .ok (d', n, ev)) ∨
    (ev = .Nothing ∧ n = as.length ∧ bs ≠ [] ∧
      ∃ s' d₂ n₂, d'.state = some s' ∧
        nextState inf d' s' bs = .ok (d₂, n₂, .Nothing) ∧
        nextState inf d s (as ++ bs) = .ok (d₂, n + n₂, .Nothing)) := by
  have hle := nextState_consume_le inf d s as d' n ev ha h
  by_cases hbs : bs = []
  · subst hbs; rw [List.append_nil]; exact .inl ⟨hle, h⟩
  obtain ⟨a, as', rfl⟩ := List.exists_cons_of_ne_nil ha
  cases s with
  | ReadChunk rem t cl =>
    by_cases hrem : rem > 0
    case neg =>
      left
      refine ⟨hle, ?_⟩
      simp only [nextState, if_neg hrem] at h ⊢
      exact h
    case pos =>
      by_cases havail : CHUNCK_BUFFER_SIZE - (if cl then [] else d.cbuf).length = 0
      · left
        refine ⟨hle, ?_⟩
        simp only [nextState, if_pos hrem, havail, if_pos] at h ⊢
        exact h
      · by_cases hsmall : min rem (CHUNCK_BUFFER_SIZE - (if cl then [] else d.cbuf).length) ≤
          (a :: as').length
        · have hn : min rem (min ((a :: as') ++ bs).length
              (CHUNCK_BUFFER_SIZE - (if cl then [] else d.cbuf).length)) =
              min rem (min (a :: as').length
                (CHUNCK_BUFFER_SIZE - (if cl then [] else d.cbuf).length)) := by
            simp only [List.length_append]
            omega
          have htake : ((a :: as') ++ bs).take (min rem (min (a :: as').length
              (CHUNCK_BUFFER_SIZE - (if cl then [] else d.cbuf).length))) =
              (a :: as').take (min rem (min (a :: as').length
                (CHUNCK_BUFFER_SIZE - (if cl then [] else d.cbuf).length))) :=
            List.take_append_of_le_length (by omega)
          left
          refine ⟨hle, ?_⟩
          simp only [nextState, if_pos hrem, if_neg havail] at h ⊢
          rw [hn, htake]
          exact h
        · -- the combined step crosses the slice boundary: it equals the step on
          -- `as` followed by one more copy step on `bs`
          simp only [nextState, if_pos hrem, if_neg havail] at h
          have hnA : min rem (min (a :: as').length
              (CHUNCK_BUFFER_SIZE - (if cl then [] else d.cbuf).length)) =
              (a :: as').length := by omega
          rw [hnA, List.take_length, if_neg (by omega : ¬(rem - (a :: as').length = 0))] at h
          cases h
          refine .inr ⟨rfl, rfl, hbs, .ReadChunk (rem - (a :: as').length) t false, ?_⟩
          have hbs1 : 0 < bs.length := List.length_pos.mpr hbs
          have hgt2 : rem - (a :: as').length > 0 := by omega
          have hub : ¬(CHUNCK_BUFFER_SIZE - (if cl then [] else d.cbuf).length -
              (a :: as').length = 0) := by omega
          have hav2 : CHUNCK_BUFFER_SIZE -
              ((if cl then [] else d.cbuf) ++ (a :: as')).length =
              CHUNCK_BUFFER_SIZE - (if cl then [] else d.cbuf).length - (a :: as').length := by
            simp only [List.length_append]
            omega
          have hub2 : ¬(CHUNCK_BUFFER_SIZE -
              ((if cl then [] else d.cbuf) ++ (a :: as')).length = 0) := by
            rw [hav2]; exact hub
          have hsub : rem - ((a :: as').length + (min (rem - (a :: as').length) (min bs.length (CHUNCK_BUFFER_SIZE - (if cl then [] else d.cbuf).length - (a :: as').length)))) =
              rem - (a :: as').length - (min (rem - (a :: as').length) (min bs.length (CHUNCK_BUFFER_SIZE - (if cl then [] else d.cbuf).length - (a :: as').length))) := by
            omega
          have hnc : min rem (min ((a :: as') ++ bs).length
              (CHUNCK_BUFFER_SIZE - (if cl then [] else d.cbuf).length)) =
              (a :: as').length + (min (rem - (a :: as').length) (min bs.length (CHUNCK_BUFFER_SIZE - (if cl then [] else d.cbuf).length - (a :: as').length))) := by
            simp only [List.length_append]
            omega
          have htakec : ((a :: as') ++ bs).take ((a :: as').length + (min (rem - (a :: as').length) (min bs.length (CHUNCK_BUFFER_SIZE - (if cl then [] else d.cbuf).length - (a :: as').length)))) =
              (a :: as') ++ bs.take (min (rem - (a :: as').length) (min bs.length (CHUNCK_BUFFER_SIZE - (if cl then [] else d.cbuf).length - (a :: as').length))) :=
            List.take_append _
          by_cases hl2 : rem - (a :: as').length - (min (rem - (a :: as').length) (min bs.length (CHUNCK_BUFFER_SIZE - (if cl then [] else d.cbuf).length - (a :: as').length))) = 0
          · have hstep2 : nextState inf
                ({ d with
                  state := some (.ReadChunk (rem - (a :: as').length) t false)
                  crc := crcUpdate d.crc (a :: as')
                  cbuf := (if cl then [] else d.cbuf) ++ (a :: as') })
                (.ReadChunk (rem - (a :: as').length) t false) bs =
                .ok ({ d with
                  state := some (.PartialChunk (rem - (a :: as').length - (min (rem - (a :: as').length) (min bs.length (CHUNCK_BUFFER_SIZE - (if cl then [] else d.cbuf).length - (a :: as').length)))) t)
                  crc := crcUpdate (crcUpdate d.crc (a :: as')) (bs.take (min (rem - (a :: as').length) (min bs.length (CHUNCK_BUFFER_SIZE - (if cl then [] else d.cbuf).length - (a :: as').length))))
                  cbuf := ((if cl then [] else d.cbuf) ++ (a :: as')) ++ bs.take (min (rem - (a :: as').length) (min bs.length (CHUNCK_BUFFER_SIZE - (if cl then [] else d.cbuf).length - (a :: as').length))) },
                  min (rem - (a :: as').length) (min bs.length (CHUNCK_BUFFER_SIZE - (if cl then [] else d.cbuf).length - (a :: as').length)), .Nothing) := by
              simp only [nextState, if_pos hgt2, hub2, ite_false, if_neg, Bool.false_eq_true]
              rw [hav2, if_pos hl2]
            have hcomb : nextState inf d (.ReadChunk rem t cl) ((a :: as') ++ bs) =
                .ok ({ d with
                  state := some (.PartialChunk (rem - (a :: as').length - (min (rem - (a :: as').length) (min bs.length (CHUNCK_BUFFER_SIZE - (if cl then [] else d.cbuf).length - (a :: as').length)))) t)
                  crc := crcUpdate (crcUpdate d.crc (a :: as')) (bs.take (min (rem - (a :: as').length) (min bs.length (CHUNCK_BUFFER_SIZE - (if cl then [] else d.cbuf).length - (a :: as').length))))
                  cbuf := ((if cl then [] else d.cbuf) ++ (a :: as')) ++ bs.take (min (rem - (a :: as').length) (min bs.length (CHUNCK_BUFFER_SIZE - (if cl then [] else d.cbuf).length - (a :: as').length))) },
                  (a :: as').length + (min (rem - (a :: as').length) (min bs.length (CHUNCK_BUFFER_SIZE - (if cl then [] else d.cbuf).length - (a :: as').length))), .Nothing) := by
              simp only [nextState, if_pos hrem, if_neg havail]
              rw [hnc, hsub, htakec, crcUpdate_append, ← List.append_assoc, if_pos hl2]
            exact ⟨_, _, rfl, hstep2, hcomb⟩
          · have hstep2 : nextState inf
                ({ d with
                  state := some (.ReadChunk (rem - (a :: as').length) t false)
                  crc := crcUpdate d.crc (a :: as')
                  cbuf := (if cl then [] else d.cbuf) ++ (a :: as') })
                (.ReadChunk (rem - (a :: as').length) t false) bs =
                .ok ({ d with
                  state := some (.ReadChunk (rem - (a :: as').length - (min (rem - (a :: as').length) (min bs.length (CHUNCK_BUFFER_SIZE - (if cl then [] else d.cbuf).length - (a :: as').length)))) t false)
                  crc := crcUpdate (crcUpdate d.crc (a :: as')) (bs.take (min (rem - (a :: as').length) (min bs.length (CHUNCK_BUFFER_SIZE - (if cl then [] else d.cbuf).length - (a :: as').length))))
                  cbuf := ((if cl then [] else d.cbuf) ++ (a :: as')) ++ bs.take (min (rem - (a :: as').length) (min bs.length (CHUNCK_BUFFER_SIZE - (if cl then [] else d.cbuf).length - (a :: as').length))) },
                  min (rem - (a :: as').length) (min bs.length (CHUNCK_BUFFER_SIZE - (if cl then [] else d.cbuf).length - (a :: as').length)), .Nothing) := by
              simp only [nextState, if_pos hgt2, hub2, ite_false, if_neg, Bool.false_eq_true]
              rw [hav2, if_neg hl2]
            have hcomb : nextState inf d (.ReadChunk rem t cl) ((a :: as') ++ bs) =
                .ok ({ d with
                  state := some (.ReadChunk (rem - (a :: as').length - (min (rem - (a :: as').length) (min bs.length (CHUNCK_BUFFER_SIZE - (if cl then [] else d.cbuf).length - (a :: as').length)))) t false)
                  crc := crcUpdate (crcUpdate d.crc (a :: as')) (bs.take (min (rem - (a :: as').length) (min bs.length (CHUNCK_BUFFER_SIZE - (if cl then [] else d.cbuf).length - (a :: as').length))))
                  cbuf := ((if cl then [] else d.cbuf) ++ (a :: as')) ++ bs.take (min (rem - (a :: as').length) (min bs.length (CHUNCK_BUFFER_SIZE - (if cl then [] else d.cbuf).length - (a :: as').length))) },
                  (a :: as').length + (min (rem - (a :: as').length) (min bs.length (CHUNCK_BUFFER_SIZE - (if cl then [] else d.cbuf).length - (a :: as').length))), .Nothing) := by
              simp only [nextState, if_pos hrem, if_neg havail]
              rw [hnc, hsub, htakec, crcUpdate_append, ← List.append_assoc, if_neg hl2]
            exact ⟨_, _, rfl, hstep2, hcomb⟩
  | Signature i sig =>
    left
    refine ⟨hle, ?_⟩
    simp only [nextState, List.cons_append, List.headD_cons] at h ⊢
    exact h
  | U32Byte3 ty val =>
    left
    refine ⟨hle, ?_⟩
    simp only [nextState, List.cons_append, List.headD_cons] at h ⊢
    exact h
  | U32Byte2 ty val =>
    left
    refine ⟨hle, ?_⟩
    simp only [nextState, List.cons_append, List.headD_cons] at h ⊢
    exact h
  | U32Byte1 ty val =>
    left
    refine ⟨hle, ?_⟩
    simp only [nextState, List.cons_append, List.headD_cons] at h ⊢
    exact h
  | U32 ty =>
    left
    refine ⟨hle, ?_⟩
    simp only [nextState, List.cons_append, List.headD_cons] at h ⊢
    exact h
  | PartialChunk rem t =>
    left
    refine ⟨hle, ?_⟩
    simp only [nextState, List.cons_append, List.headD_cons] at h ⊢
    exact h
  | DecodeData rem t k =>
    left
    refine ⟨hle, ?_⟩
    simp only [nextState, List.cons_append, List.headD_cons] at h ⊢
    exact h


theorem readBeU32_len (l : List Nat) (v : Nat) (r : List Nat)
    (h : readBeU32 l = .ok (v, r)) : l.length = 4 + r.length := by
  rcases l with _ | ⟨a, _ | ⟨b, _ | ⟨c, _ | ⟨e, rest⟩⟩⟩⟩ <;> simp [readBeU32] at h ⊢
  rw [h.2]
  omega

theorem readU8_len (l : List Nat) (v : Nat) (r : List Nat)
    (h : readU8 l = .ok (v, r)) : l.length = 1 + r.length := by
  rcases l with _ | ⟨a, rest⟩ <;> simp [readU8] at h ⊢
  rw [h.2]
  omega

theorem parseIhdr_shape (d d' : Decoder) (res : Decoded)
    (h : parseIhdr d = .ok (d', res)) :
    (∃ w hh b c i, res = .Header w hh b c i ∧ d'.state = d.state) ∧ 13 ≤ d.cbuf.length := by
  unfold parseIhdr at h
  rcases hc : d.cbuf with _ | ⟨c0, _ | ⟨c1, _ | ⟨c2, _ | ⟨c3, _ | ⟨c4, _ | ⟨c5, _ | ⟨c6, _ |
    ⟨c7, _ | ⟨c8, _ | ⟨c9, _ | ⟨c10, _ | ⟨c11, _ | ⟨c12, rest⟩⟩⟩⟩⟩⟩⟩⟩⟩⟩⟩⟩⟩ <;>
    rw [hc] at h <;> simp only [readBeU32, readU8] at h <;>
    (repeat' split at h) <;> (try cases h)
  all_goals exact ⟨⟨_, _, _, _, _, rfl, rfl⟩, by simp⟩

theorem parseChunk_shape (d : Decoder) (t : ChunkType) (d2 : Decoder) (st : State) (res : Decoded)
    (h : parseChunk d t = .ok (d2, st, res)) :
    st = .U32 (.Crc t) ∧
      (res = .Nothing ∨
        (t = IHDR ∧ 13 ≤ d.cbuf.length ∧ ∃ w hh b c i, res = .Header w hh b c i)) := by
  unfold parseChunk at h
  by_cases hihdr : t = IHDR
  · rw [if_pos hihdr] at h
    cases hp : parseIhdr d with
    | error e => rw [hp] at h; cases h
    | ok p =>
      obtain ⟨dp, resp⟩ := p
      rw [hp] at h
      cases h
      obtain ⟨⟨w, hh2, b, c, i, hres, _⟩, hlen⟩ := parseIhdr_shape d _ _ hp
      exact ⟨rfl, .inr ⟨hihdr, hlen, w, hh2, b, c, i, hres⟩⟩
  · rw [if_neg hihdr] at h
    cases h
    exact ⟨rfl, .inl rfl⟩


theorem microRun_none (inf : InflaterFn) (d : Decoder) (buf : List Nat) (d₂ : Decoder)
    (e₂ : List Decoded) (h : MicroRun inf d buf d₂ e₂) (hs : d.state = none) :
    d₂ = d ∧ e₂ = [] := by
  cases h with
  | nil => exact ⟨rfl, rfl⟩
  | halt _ => exact ⟨rfl, rfl⟩
  | step hs' hb hn hrest => rw [hs] at hs'; cases hs'

theorem microRun_det (inf : InflaterFn) (d : Decoder) (buf : List Nat) (d₁ : Decoder)
    (e₁ : List Decoded) (h₁ : MicroRun inf d buf d₁ e₁) :
    ∀ d₂ e₂, MicroRun inf d buf d₂ e₂ → d₁ = d₂ ∧ e₁ = e₂ := by
  induction h₁ with
  | nil =>
    intro d₂ e₂ h₂
    cases h₂ with
    | nil => exact ⟨rfl, rfl⟩
    | halt _ => exact ⟨rfl, rfl⟩
    | step hs hb hn hrest => exact absurd rfl hb
  | halt hnone =>
    intro d₂ e₂ h₂
    obtain ⟨rfl, rfl⟩ := microRun_none inf _ _ _ _ h₂ hnone
    exact ⟨rfl, rfl⟩
  | step hs hb hn hrest ih =>
    intro d₂ e₂ h₂
    cases h₂ with
    | nil => exact absurd rfl hb
    | halt hnone => rw [hnone] at hs; cases hs
    | step hs₂ hb₂ hn₂ hrest₂ =>
      rw [hs] at hs₂
      cases hs₂
      rw [hn] at hn₂
      cases hn₂
      obtain ⟨rfl, rfl⟩ := ih _ _ hrest₂
      exact ⟨rfl, rfl⟩

theorem updateF_microRun_nothing (inf : InflaterFn) :
    ∀ (fuel : Nat) (d : Decoder) (buf : List Nat) (d' : Decoder) (n : Nat),
      updateF inf fuel d buf = some (.ok (d', n, .Nothing)) → MicroRun inf d buf d' [] := by
  intro fuel
  induction fuel with
  | zero => intro d buf d' n h; cases h
  | succ f ih =>
    intro d buf d' n h
    unfold updateF at h
    cases hs : d.state with
    | none =>
      simp only [hs] at h
      cases h
      exact .halt hs
    | some s =>
      simp only [hs] at h
      by_cases hb : buf = []
      · rw [if_pos hb] at h
        cases h
        subst hb
        exact .nil
      · rw [if_neg hb] at h
        cases hn : nextState inf d s buf with
        | error e => rw [hn] at h; cases h
        | ok triple =>
          obtain ⟨d₁, n₁, ev₁⟩ := triple
          rw [hn] at h
          cases ev₁ with
          | Nothing =>
            cases hrec : updateF inf f d₁ (buf.drop n₁) with
            | none => simp only [hrec] at h; cases h
            | some r =>
              cases r with
              | error e => simp only [hrec] at h; cases h
              | ok triple₂ =>
                obtain ⟨d₂, m, ev₂⟩ := triple₂
                simp only [hrec] at h
                cases ev₂ <;> cases h
                have := ih d₁ (buf.drop n₁) d' m hrec
                have hstep := MicroRun.step hs hb hn this
                simpa [emitted] using hstep
          | Header w hh b c i => simp only at h; cases h
          | ChunkBegin l t => simp only at h; cases h
          | ChunkComplete l t => simp only at h; cases h
          | ImageData data => simp only at h; cases h
          | ImageEnd => simp only at h; cases h

theorem updateF_microRun_event (inf : InflaterFn) :
    ∀ (fuel : Nat) (d : Decoder) (buf : List Nat) (d' : Decoder) (n : Nat) (ev : Decoded),
      updateF inf fuel d buf = some (.ok (d', n, ev)) → ev ≠ .Nothing →
      ∀ (d'' : Decoder) (evs : List Decoded),
        MicroRun inf d' (buf.drop n) d'' evs → MicroRun inf d buf d'' (ev :: evs) := by
  intro fuel
  induction fuel with
  | zero => intro d buf d' n ev h; cases h
  | succ f ih =>
    intro d buf d' n ev h hev d'' evs hrest
    unfold updateF at h
    cases hs : d.state with
    | none =>
      simp only [hs] at h
      cases h
      exact absurd rfl hev
    | some s =>
      simp only [hs] at h
      by_cases hb : buf = []
      · rw [if_pos hb] at h
        cases h
        exact absurd rfl hev
      · rw [if_neg hb] at h
        cases hn : nextState inf d s buf with
        | error e => rw [hn] at h; cases h
        | ok triple =>
          obtain ⟨d₁, n₁, ev₁⟩ := triple
          rw [hn] at h
          cases ev₁ with
          | Nothing =>
            cases hrec : updateF inf f d₁ (buf.drop n₁) with
            | none => simp only [hrec] at h; cases h
            | some r =>
              cases r with
              | error e => simp only [hrec] at h; cases h
              | ok triple₂ =>
                obtain ⟨d₂, m, ev₂⟩ := triple₂
                simp only [hrec] at h
                cases h
                rw [← List.drop_drop] at hrest
                have hinner := ih d₁ (buf.drop n₁) d' m ev hrec hev d'' evs hrest
                have hstep := MicroRun.step hs hb hn hinner
                simpa [emitted] using hstep
          | Header w hh b c i =>
            simp only at h; cases h
            exact MicroRun.step hs hb hn hrest
          | ChunkBegin l t =>
            simp only at h; cases h
            exact MicroRun.step hs hb hn hrest
          | ChunkComplete l t =>
            simp only at h; cases h
            exact MicroRun.step hs hb hn hrest
          | ImageData data =>
            simp only at h; cases h
            exact MicroRun.step hs hb hn hrest
          | ImageEnd =>
            simp only at h; cases h
            exact MicroRun.step hs hb hn hrest

theorem feedSlice_microRun (inf : InflaterFn) (d : Decoder) (buf : List Nat) (d' : Decoder)
    (evs : List Decoded) (h : FeedSlice inf d buf d' evs) : MicroRun inf d buf d' evs := by
  induction h with
  | last hup => exact updateF_microRun_nothing inf _ _ _ _ _ hup
  | step hup hev _ ih => exact updateF_microRun_event inf _ _ _ _ _ _ hup hev _ _ ih



theorem microRun_append (inf : InflaterFn) (d : Decoder) (xs : List Nat) (d₁ : Decoder)
    (e₁ : List Decoded) (h₁ : MicroRun inf d xs d₁ e₁) :
    ∀ (ys : List Nat) (d₂ : Decoder) (e₂ : List Decoded), MicroRun inf d₁ ys d₂ e₂ →
      MicroRun inf d (xs ++ ys) d₂ (e₁ ++ e₂) := by
  induction h₁ with
  | nil => intro ys d₂ e₂ h₂; simpa using h₂
  | halt hnone =>
    intro ys d₂ e₂ h₂
    obtain ⟨rfl, rfl⟩ := microRun_none inf _ _ _ _ h₂ hnone
    simpa using @MicroRun.halt inf _ (_ ++ ys) hnone
  | step hs hb hn hrest ih =>
    rename_i d₀ s buf d' n ev d₁' evs
    intro ys d₂ e₂ h₂
    rcases nextState_split inf d₀ s buf ys d' n ev hb hn with
      ⟨hle, hcomb⟩ | ⟨hev, hlen, hys, s', d₂', n₂, hs', hstep2, hcomb⟩
    · have hdrop : (buf ++ ys).drop n = buf.drop n ++ ys :=
        List.drop_append_of_le_length hle
      have hind := ih ys d₂ e₂ h₂
      rw [← hdrop] at hind
      have hstep := MicroRun.step hs (by
        intro hcontra
        exact hb (List.append_eq_nil.mp hcontra).1) hcomb hind
      simpa [List.append_assoc] using hstep
    · subst hev
      subst hlen
      rw [List.drop_length] at hrest
      obtain ⟨rfl, rfl⟩ : d₁' = d' ∧ evs = [] := by
        cases hrest with
        | nil => exact ⟨rfl, rfl⟩
        | halt _ => exact ⟨rfl, rfl⟩
        | step hs2 hb2 => exact absurd rfl hb2
      cases h₂ with
      | nil => exact absurd rfl hys
      | halt hnone => rw [hnone] at hs'; cases hs'
      | step hs₂ hb₂ hn₂ hrest₂ =>
        rw [hs'] at hs₂
        cases hs₂
        rw [hstep2] at hn₂
        cases hn₂
        have hdrop : (buf ++ ys).drop (buf.length + n₂) = ys.drop n₂ := List.drop_append n₂
        have hstep := MicroRun.step hs (by
          intro hcontra
          exact hb (List.append_eq_nil.mp hcontra).1) hcomb (by rw [hdrop]; exact hrest₂)
        simpa [emitted] using hstep

theorem feedSlices_microRun (inf : InflaterFn) (d : Decoder) (parts : List (List Nat))
    (d' : Decoder) (evs : List Decoded) (h : FeedSlices inf d parts d' evs) :
    MicroRun inf d parts.flatten d' evs := by
  induction h with
  | nil => exact .nil
  | cons hslice _ ih =>
    exact microRun_append inf _ _ _ _ (feedSlice_microRun inf _ _ _ _ hslice) _ _ _ ih

theorem feedSliceF_sound (inf : InflaterFn) :
    ∀ (fuel : Nat) (d : Decoder) (buf : List Nat) (d' : Decoder) (evs : List Decoded),
      feedSliceF inf fuel d buf = some (.ok (d', evs)) → FeedSlice inf d buf d' evs := by
  intro fuel
  induction fuel with
  | zero => intro d buf d' evs h; cases h
  | succ f ih =>
    intro d buf d' evs h
    unfold feedSliceF at h
    cases hup : updateF inf (f + 1) d buf with
    | none => rw [hup] at h; cases h
    | some r =>
      rw [hup] at h
      cases r with
      | error e => cases h
      | ok triple =>
        obtain ⟨d₁, n, ev⟩ := triple
        cases ev with
        | Nothing => cases h; exact .last hup
        | Header w hh b c i =>
          simp only at h
          cases hrec : feedSliceF inf f d₁ (buf.drop n) with
          | none => rw [hrec] at h; cases h
          | some r₂ =>
            rw [hrec] at h
            cases r₂ with
            | error e => cases h
            | ok p =>
              obtain ⟨d₂, evs₂⟩ := p
              cases h
              exact .step hup (by simp) (ih _ _ _ _ hrec)
        | ChunkBegin l t =>
          simp only at h
          cases hrec : feedSliceF inf f d₁ (buf.drop n) with
          | none => rw [hrec] at h; cases h
          | some r₂ =>
            rw [hrec] at h
            cases r₂ with
            | error e => cases h
            | ok p =>
              obtain ⟨d₂, evs₂⟩ := p
              cases h
              exact .step hup (by simp) (ih _ _ _ _ hrec)
        | ChunkComplete l t =>
          simp only at h
          cases hrec : feedSliceF inf f d₁ (buf.drop n) with
          | none => rw [hrec] at h; cases h
          | some r₂ =>
            rw [hrec] at h
            cases r₂ with
            | error e => cases h
            | ok p =>
              obtain ⟨d₂, evs₂⟩ := p
              cases h
              exact .step hup (by simp) (ih _ _ _ _ hrec)
        | ImageData data =>
          simp only at h
          cases hrec : feedSliceF inf f d₁ (buf.drop n) with
          | none => rw [hrec] at h; cases h
          | some r₂ =>
            rw [hrec] at h
            cases r₂ with
            | error e => cases h
            | ok p =>
              obtain ⟨d₂, evs₂⟩ := p
              cases h
              exact .step hup (by simp) (ih _ _ _ _ hrec)
        | ImageEnd =>
          simp only at h
          cases hrec : feedSliceF inf f d₁ (buf.drop n) with
          | none => rw [hrec] at h; cases h
          | some r₂ =>
            rw [hrec] at h
            cases r₂ with
            | error e => cases h
            | ok p =>
              obtain ⟨d₂, evs₂⟩ := p
              cases h
              exact .step hup (by simp) (ih _ _ _ _ hrec)

theorem feedSlicesF_sound (inf : InflaterFn) (fuel : Nat) :
    ∀ (parts : List (List Nat)) (d : Decoder) (d' : Decoder) (evs : List Decoded),
      feedSlicesF inf fuel d parts = some (.ok (d', evs)) → FeedSlices inf d parts d' evs := by
  intro parts
  induction parts with
  | nil =>
    intro d d' evs h
    unfold feedSlicesF at h
    cases h
    exact .nil
  | cons buf rest ih =>
    intro d d' evs h
    unfold feedSlicesF at h
    cases hslice : feedSliceF inf fuel d buf with
    | none => rw [hslice] at h; cases h
    | some r =>
      rw [hslice] at h
      cases r with
      | error e => cases h
      | ok p =>
        obtain ⟨d₁, evs₁⟩ := p
        simp only at h
        cases hrest : feedSlicesF inf fuel d₁ rest with
        | none => rw [hrest] at h; cases h
        | some r₂ =>
          rw [hrest] at h
          cases r₂ with
          | error e => cases h
          | ok p₂ =>
            obtain ⟨d₂, evs₂⟩ := p₂
            cases h
            exact .cons (feedSliceF_sound inf _ _ _ _ _ hslice) (ih _ _ _ hrest)

theorem storeInf_conforming : Conforming storeInf := by
  intro h input cap
  constructor
  · simp [storeInf]
  · simp [storeInf]

theorem nullInf_conforming : Conforming nullInf := by
  intro h input cap
  constructor
  · simp [nullInf]
  · simp [nullInf]

theorem rawRowLength_pos (i : Info) : 0 < i.rawRowLength := by
  simp [Info.rawRowLength]

theorem cum_mod_of_inv (cum r rrl : Nat) (hr : 0 < r) (hle : r ≤ rrl)
    (h : (cum + r) % rrl = 0) : cum % rrl = rrl - r := by
  obtain ⟨q, hq⟩ := Nat.dvd_of_mod_eq_zero h
  match q with
  | 0 => omega
  | qq + 1 =>
    rw [Nat.mul_succ] at hq
    have hcum : cum = rrl * qq + (rrl - r) := by omega
    rw [hcum, Nat.mul_add_mod]
    exact Nat.mod_eq_of_lt (by omega)

theorem parseIhdr_info (d d' : Decoder) (res : Decoded)
    (h : parseIhdr d = .ok (d', res)) :
    ∃ w hh b c i, res = .Header w hh b c i ∧ d' = { d with info := some ⟨w, hh, b, c, i⟩ } := by
  unfold parseIhdr at h
  rcases hc : d.cbuf with _ | ⟨c0, _ | ⟨c1, _ | ⟨c2, _ | ⟨c3, _ | ⟨c4, _ | ⟨c5, _ | ⟨c6, _ |
    ⟨c7, _ | ⟨c8, _ | ⟨c9, _ | ⟨c10, _ | ⟨c11, _ | ⟨c12, rest⟩⟩⟩⟩⟩⟩⟩⟩⟩⟩⟩⟩⟩ <;>
    rw [hc] at h <;> simp only [readBeU32, readU8] at h <;>
    (repeat' split at h) <;> (try cases h)
  all_goals exact ⟨_, _, _, _, _, rfl, by rw [← hc]⟩

theorem nextState_rowInv (inf : InflaterFn) (hc : Conforming inf) (d : Decoder) (s : State)
    (buf : List Nat) (d' : Decoder) (n : Nat) (ev : Decoded) (cum : Nat)
    (h : nextState inf d s buf = .ok (d', n, ev)) (hinv : rowInv d cum) :
    (∀ data, ev = .ImageData data →
        ∃ i, d.info = some i ∧ d'.info = some i ∧
          data.length ≤ i.rawRowLength ∧
          data.length + cum % i.rawRowLength ≤ i.rawRowLength ∧
          rowInv d' (cum + data.length)) ∧
    (∀ w hh b c i, ev = .Header w hh b c i →
        d'.info = some ⟨w, hh, b, c, i⟩ ∧ (d.info = none → rowInv d' cum)) ∧
    ((∀ data, ev ≠ .ImageData data) → (∀ w hh b c i, ev ≠ .Header w hh b c i) →
        d'.info = d.info ∧ d'.rowRemaining = d.rowRemaining) := by
  cases s
  case PartialChunk rem t =>
    simp only [nextState] at h
    by_cases hidat : t = IDAT
    · rw [if_pos hidat] at h
      cases h
      refine ⟨?_, ?_, ?_⟩
      · exact fun data hd => nomatch hd
      · exact fun w hh b c i hd => nomatch hd
      · exact fun _ _ => ⟨rfl, rfl⟩
    · rw [if_neg hidat] at h
      by_cases hrem : rem = 0
      · rw [if_pos hrem] at h
        unfold parseChunk at h
        by_cases hihdr : t = IHDR
        · rw [if_pos hihdr] at h
          cases hp : parseIhdr d with
          | error e => rw [hp] at h; cases h
          | ok p =>
            obtain ⟨dp, resp⟩ := p
            rw [hp] at h
            cases h
            obtain ⟨w, hh2, b, c, i, hres, hdp⟩ := parseIhdr_info d _ _ hp
            subst hres
            subst hdp
            refine ⟨?_, ?_, ?_⟩
            · exact fun data hd => nomatch hd
            · intro w' hh' b' c' i' hd
              cases hd
              refine ⟨rfl, ?_⟩
              intro hnone
              simp only [rowInv, hnone] at hinv
              simp only [rowInv]
              rw [hinv.1, hinv.2]
              exact ⟨Nat.zero_le _, by simp⟩
            · intro _ habs
              exact absurd rfl (habs w hh2 b c i)
        · rw [if_neg hihdr] at h
          cases h
          refine ⟨?_, ?_, ?_⟩
          · exact fun data hd => nomatch hd
          · exact fun w hh b c i hd => nomatch hd
          · exact fun _ _ => ⟨rfl, rfl⟩
      · rw [if_neg hrem] at h
        cases h
        refine ⟨?_, ?_, ?_⟩
        · exact fun data hd => nomatch hd
        · exact fun w hh b c i hd => nomatch hd
        · exact fun _ _ => ⟨rfl, rfl⟩
  case DecodeData rem t k =>
    simp only [nextState] at h
    by_cases hz : d.rowRemaining = 0
    case pos =>
      rw [if_pos hz] at h
      rcases hinfo : d.info with _ | i
      · rw [hinfo] at h
        cases h
      · rw [hinfo] at h
        simp only [Option.map] at h
        have hrrl : 0 < i.rawRowLength := rawRowLength_pos i
        have hcm : cum % i.rawRowLength = 0 := by
          simp only [rowInv, hinfo, hz] at hinv
          have h2 := hinv.2
          rw [Nat.add_zero] at h2
          exact h2
        have hdata := (hc d.ihist (d.cbuf.drop k) (min d.imageDataLen i.rawRowLength)).2
        split at h
        · cases h
        · by_cases hbr : k + (inf d.ihist (d.cbuf.drop k)
              (min d.imageDataLen i.rawRowLength)).2.1 = d.cbuf.length ∧
              ((inf d.ihist (d.cbuf.drop k) (min d.imageDataLen i.rawRowLength)).2.2.length = 0 ∨
                rem ≥ 0)
          · rw [if_pos hbr] at h
            cases h
            refine ⟨?_, ?_, ?_⟩
            · intro data hd
              cases hd
              refine ⟨i, rfl, rfl, by omega, by omega, ?_⟩
              simp only [rowInv]
              refine ⟨by omega, ?_⟩
              have harr : cum +
                  (inf d.ihist (d.cbuf.drop k) (min d.imageDataLen i.rawRowLength)).2.2.length +
                  (i.rawRowLength -
                    (inf d.ihist (d.cbuf.drop k) (min d.imageDataLen i.rawRowLength)).2.2.length) =
                  cum + i.rawRowLength := by omega
              rw [harr]
              rw [Nat.add_mod_right]; exact hcm
            · exact fun w hh b c i' hd => nomatch hd
            · exact fun habs _ => absurd rfl (habs _)
          · rw [if_neg hbr] at h
            cases h
            refine ⟨?_, ?_, ?_⟩
            · intro data hd
              cases hd
              refine ⟨i, rfl, rfl, by omega, by omega, ?_⟩
              simp only [rowInv]
              refine ⟨by omega, ?_⟩
              have harr : cum +
                  (inf d.ihist (d.cbuf.drop k) (min d.imageDataLen i.rawRowLength)).2.2.length +
                  (i.rawRowLength -
                    (inf d.ihist (d.cbuf.drop k) (min d.imageDataLen i.rawRowLength)).2.2.length) =
                  cum + i.rawRowLength := by omega
              rw [harr]
              rw [Nat.add_mod_right]; exact hcm
            · exact fun w hh b c i' hd => nomatch hd
            · exact fun habs _ => absurd rfl (habs _)
    case neg =>
      rw [if_neg hz] at h
      dsimp only at h
      rcases hinfo : d.info with _ | i
      · simp only [rowInv, hinfo] at hinv
        exact absurd hinv.1 hz
      · rw [hinfo] at h
        have hrrl : 0 < i.rawRowLength := rawRowLength_pos i
        simp only [rowInv, hinfo] at hinv
        have hcm : cum % i.rawRowLength = i.rawRowLength - d.rowRemaining :=
          cum_mod_of_inv cum d.rowRemaining i.rawRowLength (by omega) hinv.1 hinv.2
        have hdata := (hc d.ihist (d.cbuf.drop k) (min d.imageDataLen d.rowRemaining)).2
        split at h
        · cases h
        · by_cases hbr : k + (inf d.ihist (d.cbuf.drop k)
              (min d.imageDataLen d.rowRemaining)).2.1 = d.cbuf.length ∧
              ((inf d.ihist (d.cbuf.drop k) (min d.imageDataLen d.rowRemaining)).2.2.length = 0 ∨
                rem ≥ 0)
          · rw [if_pos hbr] at h
            cases h
            refine ⟨?_, ?_, ?_⟩
            · intro data hd
              cases hd
              refine ⟨i, rfl, rfl, by omega, by omega, ?_⟩
              simp only [rowInv]
              refine ⟨by omega, ?_⟩
              have harr : cum +
                  (inf d.ihist (d.cbuf.drop k) (min d.imageDataLen d.rowRemaining)).2.2.length +
                  (d.rowRemaining -
                    (inf d.ihist (d.cbuf.drop k) (min d.imageDataLen d.rowRemaining)).2.2.length) =
                  cum + d.rowRemaining := by omega
              rw [harr]
              exact hinv.2
            · exact fun w hh b c i' hd => nomatch hd
            · exact fun habs _ => absurd rfl (habs _)
          · rw [if_neg hbr] at h
            cases h
            refine ⟨?_, ?_, ?_⟩
            · intro data hd
              cases hd
              refine ⟨i, rfl, rfl, by omega, by omega, ?_⟩
              simp only [rowInv]
              refine ⟨by omega, ?_⟩
              have harr : cum +
                  (inf d.ihist (d.cbuf.drop k) (min d.imageDataLen d.rowRemaining)).2.2.length +
                  (d.rowRemaining -
                    (inf d.ihist (d.cbuf.drop k) (min d.imageDataLen d.rowRemaining)).2.2.length) =
                  cum + d.rowRemaining := by omega
              rw [harr]
              exact hinv.2
            · exact fun w hh b c i' hd => nomatch hd
            · exact fun habs _ => absurd rfl (habs _)
  all_goals (
    simp only [nextState] at h
    (repeat' split at h) <;> (try cases h) <;>
      ((refine ⟨?_, ?_, ?_⟩) <;>
        first
        | (intro data hd; cases hd; done)
        | (intro w hh b c i hd; cases hd; done)
        | (intro h1 h2; exact ⟨rfl, rfl⟩)))

theorem rowInv_ext (d d' : Decoder) (cum : Nat) (hi : d'.info = d.info)
    (hr : d'.rowRemaining = d.rowRemaining) (h : rowInv d cum) : rowInv d' cum := by
  simp only [rowInv, hi, hr]
  exact h

theorem infoRrl_ext (d d' : Decoder) (hi : d'.info = d.info) : infoRrl d' = infoRrl d := by
  simp only [infoRrl, hi]

theorem microRun_goodData (inf : InflaterFn) (hc : Conforming inf) (d : Decoder)
    (buf : List Nat) (d' : Decoder) (evs : List Decoded) (cum : Nat)
    (hrun : MicroRun inf d buf d' evs) (hinv : rowInv d cum)
    (hhd : headerCount evs + (if d.info.isSome then 1 else 0) ≤ 1) :
    goodDataB (infoRrl d) cum evs = true := by
  induction hrun generalizing cum with
  | nil => rfl
  | halt _ => rfl
  | step hs hb hn hrun' ih =>
    rename_i d0 s buf0 d1 n ev d2 evs0
    obtain ⟨h1, h2, h3⟩ := nextState_rowInv inf hc d0 s buf0 d1 n ev cum hn hinv
    cases ev with
    | Nothing =>
      obtain ⟨hi, hr⟩ := h3 (fun _ hd => nomatch hd) (fun _ _ _ _ _ hd => nomatch hd)
      simp only [emitted, List.nil_append]
      rw [← infoRrl_ext d0 d1 hi]
      exact ih cum (rowInv_ext d0 d1 cum hi hr hinv) (by rw [hi]; exact hhd)
    | ImageData data =>
      obtain ⟨i, hdi, hdi', hlen, hlen2, hinv'⟩ := h1 data rfl
      simp only [emitted, List.cons_append, List.nil_append, goodDataB]
      have hrrl : infoRrl d0 = i.rawRowLength := by simp only [infoRrl, hdi]
      have hrrl' : infoRrl d1 = i.rawRowLength := by simp only [infoRrl, hdi']
      rw [hrrl]
      have hgd : goodDataB i.rawRowLength (cum + data.length) evs0 = true := by
        rw [← hrrl']
        refine ih (cum + data.length) hinv' ?_
        simp only [hdi', Option.isSome] at *
        simp only [headerCount, hdi, Option.isSome] at hhd
        exact hhd
      simp [hlen, hlen2, hgd]
    | Header w hh b c i =>
      obtain ⟨hinfo', himpl⟩ := h2 w hh b c i rfl
      simp only [emitted, List.cons_append, List.nil_append] at hhd
      have hhc : headerCount (Decoded.Header w hh b c i :: evs0) = 1 + headerCount evs0 := rfl
      rw [hhc] at hhd
      have hnone : d0.info = none := by
        rcases hI : d0.info with _ | j
        · rfl
        · rw [hI] at hhd
          have he : (if (some j).isSome = true then 1 else 0) = 1 := rfl
          rw [he] at hhd
          omega
      have hev0 : headerCount evs0 = 0 := by omega
      have hinv' : rowInv d1 cum := himpl hnone
      simp only [emitted, List.cons_append, List.nil_append, goodDataB]
      have hrrl' : infoRrl d1 = Info.rawRowLength ⟨w, hh, b, c, i⟩ := by
        simp only [infoRrl, hinfo']
      rw [← hrrl']
      refine ih cum hinv' ?_
      rw [hinfo', hev0]
      have he : (if (some (⟨w, hh, b, c, i⟩ : Info)).isSome = true then 1 else 0) = 1 := rfl
      rw [he]
    | ChunkBegin len t =>
      obtain ⟨hi, hr⟩ := h3 (fun _ hd => nomatch hd) (fun _ _ _ _ _ hd => nomatch hd)
      simp only [emitted, List.cons_append, List.nil_append, goodDataB]
      rw [← infoRrl_ext d0 d1 hi]
      refine ih cum (rowInv_ext d0 d1 cum hi hr hinv) ?_
      rw [hi]
      simp only [headerCount] at hhd
      exact hhd
    | ChunkComplete v t =>
      obtain ⟨hi, hr⟩ := h3 (fun _ hd => nomatch hd) (fun _ _ _ _ _ hd => nomatch hd)
      simp only [emitted, List.cons_append, List.nil_append, goodDataB]
      rw [← infoRrl_ext d0 d1 hi]
      refine ih cum (rowInv_ext d0 d1 cum hi hr hinv) ?_
      rw [hi]
      simp only [headerCount] at hhd
      exact hhd
    | ImageEnd =>
      obtain ⟨hi, hr⟩ := h3 (fun _ hd => nomatch hd) (fun _ _ _ _ _ hd => nomatch hd)
      simp only [emitted, List.cons_append, List.nil_append, goodDataB]
      rw [← infoRrl_ext d0 d1 hi]
      refine ih cum (rowInv_ext d0 d1 cum hi hr hinv) ?_
      rw [hi]
      simp only [headerCount] at hhd
      exact hhd

theorem unfilterGo_length (ft bpp : Nat) (prev : List Nat) :
    ∀ (cur : List Nat) (i : Nat) (out : List Nat),
      (unfilterGo ft bpp prev i cur out).length = out.length + cur.length := by
  intro cur
  induction cur with
  | nil => intro i out; simp [unfilterGo]
  | cons x rest ih =>
    intro i out
    simp only [unfilterGo]
    rw [ih]
    simp
    omega

theorem unfilterRow_length (ft bpp : Nat) (prev cur : List Nat) :
    (unfilterRow ft bpp prev cur).length = cur.length := by
  simp [unfilterRow, unfilterGo_length]

theorem processImageData_complete (bpp rowlen : Nat) (prev current data : List Nat)
    (row p c : List Nat) (hpos : 0 < rowlen)
    (h : processImageData bpp rowlen prev current data = .ok (some row, p, c)) :
    p.length = rowlen ∧ c = [] := by
  rw [processImageData.eq_def] at h
  dsimp only at h
  split at h
  · split at h
    · cases h
      constructor
      · simp only [List.length_cons, unfilterRow_length, List.length_drop]
        rename_i hlen _ _
        omega
      · rfl
    · cases h
  · cases h

theorem processImageData_partial (bpp rowlen : Nat) (prev current data : List Nat)
    (p c : List Nat)
    (h : processImageData bpp rowlen prev current data = .ok (none, p, c)) :
    p = prev ∧ c = current ++ data := by
  rw [processImageData.eq_def] at h
  dsimp only at h
  split at h
  · split at h
    · cases h
    · cases h
  · cases h
    exact ⟨rfl, rfl⟩

theorem readInfoLoop_fields (inf : InflaterFn) :
    ∀ (fuel : Nat) (r : PngReader) (acc : Info) (r' : PngReader) (acc' : Info),
      readInfoLoop inf fuel r acc = some (.ok (r', acc')) →
      r'.prev = r.prev ∧ r'.current = r.current ∧ r'.bpp = r.bpp ∧
        r'.rowlen = r.rowlen ∧ r'.info = r.info := by
  intro fuel
  induction fuel with
  | zero => intro r acc r' acc' h; cases h
  | succ f ih =>
    intro r acc r' acc' h
    simp only [readInfoLoop] at h
    split at h
    · cases h
    · cases h
    · rename_i val st _
      split at h
      · cases h
        exact ⟨rfl, rfl, rfl, rfl, rfl⟩
      · have hf := ih _ _ _ _ h
        exact hf
      · split at h
        · cases h
          exact ⟨rfl, rfl, rfl, rfl, rfl⟩
        · have hf := ih _ _ _ _ h
          exact hf
      · have hf := ih _ _ _ _ h
        exact hf

theorem readInfoF_buffers (inf : InflaterFn) (fuel : Nat) (r r' : PngReader)
    (hnone : r.info = none) (h : readInfoF inf fuel r = some (.ok r')) :
    r'.prev = List.replicate r'.rowlen 0 ∧ r'.current = r.current := by
  unfold readInfoF at h
  rw [hnone] at h
  dsimp only at h
  split at h
  · cases h
  · cases h
  · rename_i rl acc hl
    cases h
    obtain ⟨_, hcur, _, _, _⟩ := readInfoLoop_fields inf fuel r Info.dflt rl acc hl
    exact ⟨rfl, hcur⟩

/-- Claim C1: feeding a byte stream to `Decoder::update` as any partition
into successive slices (one-byte slices included) yields the same final
decoder and the same ordered non-`Nothing` event trace as feeding it in any
other partition — in particular as the whole stream in one slice.  In this
model the traces agree exactly, so the `ImageData` payloads (and a fortiori
their concatenation) also agree. -/
theorem update_chunking_invariant (inf : InflaterFn) (d : Decoder)
    (parts₁ parts₂ : List (List Nat)) (d₁ d₂ : Decoder) (evs₁ evs₂ : List Decoded)
    (h₁ : FeedSlices inf d parts₁ d₁ evs₁) (h₂ : FeedSlices inf d parts₂ d₂ evs₂)
    (hflat : parts₁.flatten = parts₂.flatten) :
    evs₁ = evs₂ ∧ d₁ = d₂ := by
  have m₁ := feedSlices_microRun inf d parts₁ d₁ evs₁ h₁
  have m₂ := feedSlices_microRun inf d parts₂ d₂ evs₂ h₂
  rw [hflat] at m₁
  obtain ⟨hd, he⟩ := microRun_det inf _ _ _ _ m₁ _ _ m₂
  exact ⟨he, hd⟩

theorem update_chunking_invariant_witness :
    FeedSlices storeInf Decoder.new (iendStream.map (fun b => [b])) dAfterEnd
        [.ChunkBegin 0 IEND, .ImageEnd] ∧
    FeedSlices storeInf Decoder.new [iendStream] dAfterEnd [.ChunkBegin 0 IEND, .ImageEnd] ∧
    ([Decoded.ChunkBegin 0 IEND, Decoded.ImageEnd] = [Decoded.ChunkBegin 0 IEND, Decoded.ImageEnd] ∧
      dAfterEnd = dAfterEnd) := by
  have hA : feedSlicesF storeInf 30 Decoder.new (iendStream.map (fun b => [b])) =
      some (.ok (dAfterEnd, [.ChunkBegin 0 IEND, .ImageEnd])) := by decide
  have hB : feedSlicesF storeInf 30 Decoder.new [iendStream] =
      some (.ok (dAfterEnd, [.ChunkBegin 0 IEND, .ImageEnd])) := by decide
  have h₁ := feedSlicesF_sound storeInf 30 _ _ _ _ hA
  have h₂ := feedSlicesF_sound storeInf 30 _ _ _ _ hB
  exact ⟨h₁, h₂,
    update_chunking_invariant storeInf Decoder.new _ _ _ _ _ _ h₁ h₂ (by decide)⟩


/-- Claim C10: calling `update` with an empty input slice consumes 0 bytes,
emits `Nothing`, and returns the decoder completely unchanged — state, CRC
accumulator, chunk buffer, inflater session and `row_remaining` — for every
decoder and every fuel bound; `next_state` is never entered. -/
theorem update_empty_input_noop (inf : InflaterFn) (fuel : Nat) (d : Decoder) :
    updateF inf (fuel + 1) d [] = some (.ok (d, 0, .Nothing)) := by
  cases h : d.state <;> simp [updateF, h]

/-- Claim C3 (amended): the decoder is not terminal after `ImageEnd`.  The
micro-step that emits `ImageEnd` always leaves the decoder in the
`U32(Length)` state, ready to read another chunk header: a subsequent call
to `update` with input does not sit idle returning `Nothing`. -/
theorem imageEnd_state_not_terminal (inf : InflaterFn) (d : Decoder) (s : State)
    (buf : List Nat) (d' : Decoder) (n : Nat)
    (h : nextState inf d s buf = .ok (d', n, .ImageEnd)) :
    d'.state = some (.U32 .Length) := by
  cases s
  case PartialChunk rem t =>
    simp only [nextState] at h
    by_cases hidat : t = IDAT
    · rw [if_pos hidat] at h; cases h
    · rw [if_neg hidat] at h
      by_cases hrem : rem = 0
      · rw [if_pos hrem] at h
        cases hp : parseChunk d t with
        | error e => rw [hp] at h; cases h
        | ok p =>
          obtain ⟨dp, stp, resp⟩ := p
          rw [hp] at h
          cases h
          obtain ⟨hst, hres⟩ := parseChunk_shape d _ _ _ _ hp
          rcases hres with hres | ⟨-, -, w, hh2, b, c, i, hres⟩ <;> cases hres
      · rw [if_neg hrem] at h; cases h
  all_goals (simp only [nextState] at h; (repeat' split at h) <;> (try cases h) <;> try rfl)

/-- Claim C3 counterexample: after the full `iendStream` run (which emits
`ImageEnd`), feeding a further byte makes `update` consume it (1 ≠ 0
bytes) as the first byte of another chunk's length field — not the
claimed zero-consuming terminal behaviour. -/
theorem imageEnd_cex :
    feedSliceF storeInf 30 Decoder.new iendStream =
      some (.ok (dAfterEnd, [.ChunkBegin 0 IEND, .ImageEnd])) ∧
    updateF storeInf 5 dAfterEnd [99] =
      some (.ok ({ dAfterEnd with state := some (.U32Byte1 .Length (99 <<< 24)) }, 1,
        .Nothing)) ∧
    (1 : Nat) ≠ 0 := by
  refine ⟨by decide, by decide, by decide⟩

/-- C3 witness -/
theorem imageEnd_state_witness :
    nextState storeInf { dAfterEnd with state := some (.U32Byte3 (.Crc IEND) 0xAE426000) }
        (.U32Byte3 (.Crc IEND) 0xAE426000) [0x82] = .ok (dAfterEnd, 1, .ImageEnd) ∧
    dAfterEnd.state = some (.U32 .Length) :=
  ⟨by decide, imageEnd_state_not_terminal storeInf
    { dAfterEnd with state := some (.U32Byte3 (.Crc IEND) 0xAE426000) }
    (.U32Byte3 (.Crc IEND) 0xAE426000) [0x82] dAfterEnd 1 (by decide)⟩

/-- Claim C4 (amended): a `Header` event arises only from the
`PartialChunk 0 IHDR` state with the full 13-byte body buffered, consumes
no input byte, and moves the decoder to `U32(Crc IHDR)` — i.e. the header
is emitted *before* the IHDR CRC is even read from the stream, refuting
the claim that it is emitted only after the CRC check succeeds. -/
theorem header_emission_point (inf : InflaterFn) (d : Decoder) (s : State) (buf : List Nat)
    (d' : Decoder) (n : Nat) (w hh : Nat) (b c : Nat) (i : Bool)
    (h : nextState inf d s buf = .ok (d', n, .Header w hh b c i)) :
    s = .PartialChunk 0 IHDR ∧ n = 0 ∧ 13 ≤ d.cbuf.length ∧
      d'.state = some (.U32 (.Crc IHDR)) := by
  cases s
  case PartialChunk rem t =>
    simp only [nextState] at h
    by_cases hidat : t = IDAT
    · rw [if_pos hidat] at h; cases h
    · rw [if_neg hidat] at h
      by_cases hrem : rem = 0
      · rw [if_pos hrem] at h
        cases hp : parseChunk d t with
        | error e => rw [hp] at h; cases h
        | ok p =>
          obtain ⟨dp, stp, resp⟩ := p
          rw [hp] at h
          cases h
          obtain ⟨hst, hres⟩ := parseChunk_shape d _ _ _ _ hp
          rcases hres with hres | ⟨hihdr, hlen, w', hh2', b', c', i', hres⟩
          · cases hres
          · subst hihdr hrem
            exact ⟨rfl, rfl, hlen, by rw [hst]⟩
      · rw [if_neg hrem] at h; cases h
  all_goals (simp only [nextState] at h; (repeat' split at h) <;> (try cases h))

/-- Claim C4 counterexample: a concrete micro-step emits `Header` while
the stream still contains none of the four IHDR CRC bytes. -/
theorem header_before_crc_cex :
    feedEvents storeInf 40 Decoder.new ihdrOnlyStream =
      some [.ChunkBegin 13 IHDR, .Header 1 1 8 0 false] := by
  decide

/-- C4 witness -/
theorem header_emission_point_witness :
    nextState storeInf { Decoder.new with cbuf := ihdrBody, state := none }
        (.PartialChunk 0 IHDR) [0] =
      .ok ({ Decoder.new with
               cbuf := ihdrBody
               info := some ⟨1, 1, 8, 0, false⟩
               state := some (.U32 (.Crc IHDR)) }, 0, .Header 1 1 8 0 false) ∧
    (State.PartialChunk 0 IHDR = .PartialChunk 0 IHDR ∧ (0 : Nat) = 0 ∧
      13 ≤ ({ Decoder.new with cbuf := ihdrBody, state := none } : Decoder).cbuf.length ∧
      ({ Decoder.new with
           cbuf := ihdrBody
           info := some ⟨1, 1, 8, 0, false⟩
           state := some (.U32 (.Crc IHDR)) } : Decoder).state = some (.U32 (.Crc IHDR))) :=
  ⟨by decide, header_emission_point storeInf
    { Decoder.new with cbuf := ihdrBody, state := none } (.PartialChunk 0 IHDR) [0]
    { Decoder.new with
        cbuf := ihdrBody
        info := some ⟨1, 1, 8, 0, false⟩
        state := some (.U32 (.Crc IHDR)) } 0 1 1 8 0 false (by decide)⟩

/-- Claim C5 counterexample: `parse_ihdr` accepts an IHDR body with bit
depth 3 — not one of 1, 2, 4, 8, 16 — and emits its `Header` event. -/
theorem bit_depth_unchecked_cex :
    parseIhdr { Decoder.new with cbuf := [0,0,0,1, 0,0,0,1, 3, 0, 0, 0, 0] } =
      .ok ({ Decoder.new with
               cbuf := [0,0,0,1, 0,0,0,1, 3, 0, 0, 0, 0]
               info := some ⟨1, 1, 3, 0, false⟩ },
           .Header 1 1 3 0 false) := by
  decide

/-- Claim C5 (amended): for every 13-byte IHDR body, `parse_ihdr` checks
color type (0, 2, 3, 4 or 6), compression method (0), filter method (0)
and interlace method (0 or 1), in that order, each failure a `Format`
error carrying a human-readable message — but it performs no bit-depth
validation at all, so only four of the five claimed validations exist. -/
theorem parse_ihdr_validations (d : Decoder) (w h bd ct cm fm il : Nat)
    (hw : w < 4294967296) (hh : h < 4294967296)
    (hcb : d.cbuf = u32be w ++ u32be h ++ [bd, ct, cm, fm, il]) :
    parseIhdr d =
      if ¬(ct = 0 ∨ ct = 2 ∨ ct = 3 ∨ ct = 4 ∨ ct = 6) then
        .error (.Format ("invalid color type (" ++ toString ct ++ ")"))
      else if cm ≠ 0 then
        .error (.Format ("unknown compression method (" ++ toString cm ++ ")"))
      else if fm ≠ 0 then
        .error (.Format ("unknown filter method (" ++ toString fm ++ ")"))
      else if il = 0 then
        .ok ({ d with info := some ⟨w, h, bd, ct, false⟩ }, .Header w h bd ct false)
      else if il = 1 then
        .ok ({ d with info := some ⟨w, h, bd, ct, true⟩ }, .Header w h bd ct true)
      else
        .error (.Format ("unknown interlace method (" ++ toString il ++ ")")) := by
  have hw' : w / 16777216 % 256 * 16777216 + w / 65536 % 256 * 65536 +
      w / 256 % 256 * 256 + w % 256 = w := by omega
  have hh' : h / 16777216 % 256 * 16777216 + h / 65536 % 256 * 65536 +
      h / 256 % 256 * 256 + h % 256 = h := by omega
  simp only [parseIhdr, hcb, u32be, List.cons_append, List.nil_append, readBeU32, readU8,
    colorTypeFromU8, hw', hh']
  split_ifs <;> simp_all

/-- C5 witness -/
theorem parse_ihdr_validations_witness :
    (1 : Nat) < 4294967296 ∧
    ({ Decoder.new with cbuf := u32be 1 ++ u32be 1 ++ [16, 2, 0, 0, 0] } : Decoder).cbuf =
      u32be 1 ++ u32be 1 ++ [16, 2, 0, 0, 0] ∧
    parseIhdr { Decoder.new with cbuf := u32be 1 ++ u32be 1 ++ [16, 2, 0, 0, 0] } =
      (if ¬((2:Nat) = 0 ∨ (2:Nat) = 2 ∨ (2:Nat) = 3 ∨ (2:Nat) = 4 ∨ (2:Nat) = 6) then
        .error (.Format ("invalid color type (" ++ toString (2:Nat) ++ ")"))
      else if (0:Nat) ≠ 0 then
        .error (.Format ("unknown compression method (" ++ toString (0:Nat) ++ ")"))
      else if (0:Nat) ≠ 0 then
        .error (.Format ("unknown filter method (" ++ toString (0:Nat) ++ ")"))
      else if (0:Nat) = 0 then
        .ok ({ { Decoder.new with cbuf := u32be 1 ++ u32be 1 ++ [16, 2, 0, 0, 0] } with
                 info := some ⟨1, 1, 16, 2, false⟩ }, .Header 1 1 16 2 false)
      else if (0:Nat) = 1 then
        .ok ({ { Decoder.new with cbuf := u32be 1 ++ u32be 1 ++ [16, 2, 0, 0, 0] } with
                 info := some ⟨1, 1, 16, 2, true⟩ }, .Header 1 1 16 2 true)
      else
        .error (.Format ("unknown interlace method (" ++ toString (0:Nat) ++ ")"))) :=
  ⟨by decide, rfl,
    parse_ihdr_validations { Decoder.new with cbuf := u32be 1 ++ u32be 1 ++ [16, 2, 0, 0, 0] }
      1 1 16 2 0 0 0 (by decide) (by decide) rfl⟩

/-- Claim C6 (amended): after an inflate pass in `DecodeData` that emits
an `ImageData` event, the decoder consumes no input byte and transitions
to `ReadChunk(remaining, type, clear=true)` exactly when the body-buffer
cursor has reached the end of the chunk body buffer.  The claim's extra
condition "the produced slice is empty or `remaining` equals zero" is
vacuous: the source tests the unsigned `remaining >= 0`, which always
holds.  Otherwise it stays in `DecodeData` with the advanced cursor. -/
theorem decodeData_transition (inf : InflaterFn) (d : Decoder) (rem : Nat) (t : ChunkType)
    (n : Nat) (buf : List Nat) (d' : Decoder) (k : Nat) (data : List Nat) (rowRem : Nat)
    (hrr : (if d.rowRemaining = 0 then Option.map Info.rawRowLength d.info
            else some d.rowRemaining) = some rowRem)
    (h : nextState inf d (.DecodeData rem t n) buf = .ok (d', k, .ImageData data)) :
    k = 0 ∧
      d'.state = some
        (if n + (inf d.ihist (d.cbuf.drop n) (min d.imageDataLen rowRem)).2.1 = d.cbuf.length
         then .ReadChunk rem t true
         else .DecodeData rem t
           (n + (inf d.ihist (d.cbuf.drop n) (min d.imageDataLen rowRem)).2.1)) := by
  simp only [nextState, hrr] at h
  split at h
  · cases h
  · split at h
    · rename_i hco
      cases h
      exact ⟨rfl, by rw [if_pos hco.1]⟩
    · rename_i hco
      cases h
      refine ⟨rfl, ?_⟩
      rw [if_neg fun hEq => hco ⟨hEq, Or.inr (Nat.zero_le _)⟩]

/-- Claim C6 counterexample: a pass whose produced slice is non-empty and
whose chunk-level `remaining` is 5 ≠ 0 still transitions to `ReadChunk`
once the cursor reaches the end of the body buffer. -/
theorem decodeData_transition_cex :
    nextState storeInf dDecode (.DecodeData 5 IDAT 0) [0] =
      .ok ({ dDecode with
               state := some (.ReadChunk 5 IDAT true)
               ihist := [([7], 3)]
               rowRemaining := 2 }, 0, .ImageData [7]) ∧
    ({ dDecode with
         state := some (.ReadChunk 5 IDAT true)
         ihist := [([7], 3)]
         rowRemaining := 2 } : Decoder).state = some (.ReadChunk 5 IDAT true) ∧
    ¬(([7] : List Nat).length = 0 ∨ (5 : Nat) = 0) := by
  refine ⟨by decide, by decide, by decide⟩

/-- C6 witness -/
theorem decodeData_transition_witness :
    ((if dDecode.rowRemaining = 0 then Option.map Info.rawRowLength dDecode.info
      else some dDecode.rowRemaining) = some 3) ∧
    (0 : Nat) = 0 ∧
    ({ dDecode with
         state := some (.ReadChunk 5 IDAT true)
         ihist := [([7], 3)]
         rowRemaining := 2 } : Decoder).state = some
      (if 0 + (storeInf dDecode.ihist (dDecode.cbuf.drop 0)
          (min dDecode.imageDataLen 3)).2.1 = dDecode.cbuf.length
       then State.ReadChunk 5 IDAT true
       else State.DecodeData 5 IDAT
         (0 + (storeInf dDecode.ihist (dDecode.cbuf.drop 0)
            (min dDecode.imageDataLen 3)).2.1)) :=
  ⟨by decide, (decodeData_transition storeInf dDecode 5 IDAT 0 [0]
      { dDecode with
          state := some (.ReadChunk 5 IDAT true)
          ihist := [([7], 3)]
          rowRemaining := 2 } 0 [7] 3 (by decide) (by decide)).1,
    (decodeData_transition storeInf dDecode 5 IDAT 0 [0]
      { dDecode with
          state := some (.ReadChunk 5 IDAT true)
          ihist := [([7], 3)]
          rowRemaining := 2 } 0 [7] 3 (by decide) (by decide)).2⟩

/-- Claim C7 (refuted; code bug): when the byte source is at EOF (every
read returns zero bytes) and the window is empty, `decode_next` never
returns the claimed `Ok(None)` sentinel: the loop re-reads and re-enters
`update` (which consumes nothing on an empty buffer) forever — in the
model the driver exhausts every fuel bound. -/
theorem decode_next_eof_divergence (inf : InflaterFn) :
    ∀ (fuel : Nat) (d : Decoder), decodeNextF inf fuel ⟨[], d, []⟩ = none := by
  intro fuel
  induction fuel with
  | zero => intro d; rfl
  | succ f ih =>
    intro d
    simp only [decodeNextF, if_true, List.headD_nil, List.tail_nil]
    rw [updateF_nil]
    simpa using ih d

set_option maxHeartbeats 1600000 in
/-- Claim C8: feeding the first 8 bytes of a stream, if they are exactly
137, 80, 78, 71, 13, 10, 26, 10 the decoder consumes all 8 and proceeds
to the `U32(Length)` state without error; if any position differs,
`update` returns the fatal `InvalidSignature` error. -/
theorem signature_check (inf : InflaterFn) (b0 b1 b2 b3 b4 b5 b6 b7 : Nat)
    (h0 : b0 < 256) (h1 : b1 < 256) (h2 : b2 < 256) (h3 : b3 < 256)
    (h4 : b4 < 256) (h5 : b5 < 256) (h6 : b6 < 256) (h7 : b7 < 256) :
    updateF inf 9 Decoder.new [b0, b1, b2, b3, b4, b5, b6, b7] =
      (if b0 = 137 ∧ b1 = 80 ∧ b2 = 78 ∧ b3 = 71 ∧ b4 = 13 ∧ b5 = 10 ∧ b6 = 26 ∧ b7 = 10
       then some (.ok ({ Decoder.new with state := some (.U32 .Length) }, 8, .Nothing))
       else some (.error .InvalidSignature)) := by
  have e1 := updateF_go inf 8 Decoder.new (.Signature 0 [0,0,0,0,0,0,0])
    [b0, b1, b2, b3, b4, b5, b6, b7]
    { Decoder.new with state := some (.Signature 1 [b0,0,0,0,0,0,0]) } 1
    rfl (by simp) (by simp [nextState, Nat.mod_eq_of_lt h0, List.set])
  have e2 := updateF_go inf 7 { Decoder.new with state := some (.Signature 1 [b0,0,0,0,0,0,0]) }
    (.Signature 1 [b0,0,0,0,0,0,0]) [b1, b2, b3, b4, b5, b6, b7]
    { Decoder.new with state := some (.Signature 2 [b0,b1,0,0,0,0,0]) } 1
    rfl (by simp) (by simp [nextState, Nat.mod_eq_of_lt h1, List.set])
  have e3 := updateF_go inf 6 { Decoder.new with state := some (.Signature 2 [b0,b1,0,0,0,0,0]) }
    (.Signature 2 [b0,b1,0,0,0,0,0]) [b2, b3, b4, b5, b6, b7]
    { Decoder.new with state := some (.Signature 3 [b0,b1,b2,0,0,0,0]) } 1
    rfl (by simp) (by simp [nextState, Nat.mod_eq_of_lt h2, List.set])
  have e4 := updateF_go inf 5 { Decoder.new with state := some (.Signature 3 [b0,b1,b2,0,0,0,0]) }
    (.Signature 3 [b0,b1,b2,0,0,0,0]) [b3, b4, b5, b6, b7]
    { Decoder.new with state := some (.Signature 4 [b0,b1,b2,b3,0,0,0]) } 1
    rfl (by simp) (by simp [nextState, Nat.mod_eq_of_lt h3, List.set])
  have e5 := updateF_go inf 4 { Decoder.new with state := some (.Signature 4 [b0,b1,b2,b3,0,0,0]) }
    (.Signature 4 [b0,b1,b2,b3,0,0,0]) [b4, b5, b6, b7]
    { Decoder.new with state := some (.Signature 5 [b0,b1,b2,b3,b4,0,0]) } 1
    rfl (by simp) (by simp [nextState, Nat.mod_eq_of_lt h4, List.set])
  have e6 := updateF_go inf 3 { Decoder.new with state := some (.Signature 5 [b0,b1,b2,b3,b4,0,0]) }
    (.Signature 5 [b0,b1,b2,b3,b4,0,0]) [b5, b6, b7]
    { Decoder.new with state := some (.Signature 6 [b0,b1,b2,b3,b4,b5,0]) } 1
    rfl (by simp) (by simp [nextState, Nat.mod_eq_of_lt h5, List.set])
  have e7 := updateF_go inf 2 { Decoder.new with state := some (.Signature 6 [b0,b1,b2,b3,b4,b5,0]) }
    (.Signature 6 [b0,b1,b2,b3,b4,b5,0]) [b6, b7]
    { Decoder.new with state := some (.Signature 7 [b0,b1,b2,b3,b4,b5,b6]) } 1
    rfl (by simp) (by simp [nextState, Nat.mod_eq_of_lt h6, List.set])
  rw [e1]; simp only [List.drop_succ_cons, List.drop_zero]
  rw [e2]; simp only [List.drop_succ_cons, List.drop_zero]
  rw [e3]; simp only [List.drop_succ_cons, List.drop_zero]
  rw [e4]; simp only [List.drop_succ_cons, List.drop_zero]
  rw [e5]; simp only [List.drop_succ_cons, List.drop_zero]
  rw [e6]; simp only [List.drop_succ_cons, List.drop_zero]
  rw [e7]; simp only [List.drop_succ_cons, List.drop_zero]
  by_cases hc : b0 = 137 ∧ b1 = 80 ∧ b2 = 78 ∧ b3 = 71 ∧ b4 = 13 ∧ b5 = 10 ∧ b6 = 26 ∧ b7 = 10
  · obtain ⟨rfl, rfl, rfl, rfl, rfl, rfl, rfl, rfl⟩ := hc
    have e8 := updateF_go inf 1
      { Decoder.new with state := some (.Signature 7 [137,80,78,71,13,10,26]) }
      (.Signature 7 [137,80,78,71,13,10,26]) [10]
      { Decoder.new with state := some (.U32 .Length) } 1
      rfl (by simp) (by simp [nextState])
    rw [e8]
    simp [updateF]
  · have hcond : ¬([b0,b1,b2,b3,b4,b5,b6] = [137, 80, 78, 71, 13, 10, 26] ∧ b7 % 256 = 10) := by
      intro hconj
      obtain ⟨hl, hb⟩ := hconj
      rw [Nat.mod_eq_of_lt h7] at hb
      simp only [List.cons.injEq, and_true] at hl
      exact hc ⟨hl.1, hl.2.1, hl.2.2.1, hl.2.2.2.1, hl.2.2.2.2.1, hl.2.2.2.2.2.1,
        hl.2.2.2.2.2.2, hb⟩
    have e8 := updateF_goErr inf 1
      { Decoder.new with state := some (.Signature 7 [b0,b1,b2,b3,b4,b5,b6]) }
      (.Signature 7 [b0,b1,b2,b3,b4,b5,b6]) [b7] .InvalidSignature
      rfl (by simp)
      (by simp only [nextState, List.headD_cons]
          rw [if_neg (by omega : ¬ (7:Nat) < 7), if_neg hcond])
    rw [e8, if_neg hc]

/-- C8 witness -/
theorem signature_check_witness :
    ((137 : Nat) < 256 ∧ (80 : Nat) < 256 ∧ (78 : Nat) < 256 ∧ (71 : Nat) < 256 ∧
     (13 : Nat) < 256 ∧ (10 : Nat) < 256 ∧ (26 : Nat) < 256 ∧ (11 : Nat) < 256) ∧
    updateF storeInf 9 Decoder.new [137, 80, 78, 71, 13, 10, 26, 11] =
      (if (137:Nat) = 137 ∧ (80:Nat) = 80 ∧ (78:Nat) = 78 ∧ (71:Nat) = 71 ∧ (13:Nat) = 13 ∧
          (10:Nat) = 10 ∧ (26:Nat) = 26 ∧ (11:Nat) = 10
       then some (.ok ({ Decoder.new with state := some (.U32 .Length) }, 8, .Nothing))
       else some (.error .InvalidSignature)) :=
  ⟨by decide, signature_check storeInf 137 80 78 71 13 10 26 11
    (by decide) (by decide) (by decide) (by decide) (by decide) (by decide) (by decide)
    (by decide)⟩

/-- Claim C2 (amended): in every run from a fresh decoder with a
conforming inflater that emits at most one header, every `ImageData`
payload has length at most `raw_row_length` and never crosses a multiple
of `raw_row_length` in the cumulative inflated stream (`goodDataB`).  The
claimed lower bound `1 ≤ slice.len()` is false: empty payloads are
emitted (see the counterexample). -/
theorem imageData_row_bounds (inf : InflaterFn) (buf : List Nat) (d' : Decoder)
    (evs : List Decoded) (hc : Conforming inf)
    (hrun : MicroRun inf Decoder.new buf d' evs) (hhd : headerCount evs ≤ 1) :
    goodDataB 0 0 evs = true := by
  have h0 : rowInv Decoder.new 0 := ⟨rfl, rfl⟩
  have hr : infoRrl Decoder.new = 0 := rfl
  rw [← hr]
  refine microRun_goodData inf hc Decoder.new buf d' evs 0 hrun h0 ?_
  have he : (if (Decoder.new.info).isSome = true then 1 else 0) = 0 := rfl
  rw [he]
  omega

set_option maxRecDepth 10000 in
/-- Claim C2 counterexample: on `idatStream` the event trace ends with
`ImageData []` — an empty payload, refuting `1 ≤ slice.len()`. -/
theorem imageData_length_cex :
    feedEvents nullInf 60 Decoder.new idatStream = some idatEvs ∧
    idatEvs.getLast? = some (.ImageData []) ∧
    ¬ 1 ≤ (List.length ([] : List Nat)) := by
  refine ⟨by decide, by decide, by decide⟩

set_option maxRecDepth 10000 in
theorem imageData_row_bounds_witness :
    goodDataB 0 0 idatEvs = true :=
  imageData_row_bounds nullInf idatStream dIdat idatEvs nullInf_conforming
    (feedSlice_microRun nullInf Decoder.new idatStream dIdat idatEvs
      (feedSliceF_sound nullInf 60 Decoder.new idatStream dIdat idatEvs (by decide)))
    (by decide)

/-- Claim C9 (amended): `read_info` sizes `prev` to `rowlen` zero bytes
but leaves `current` untouched (empty for a fresh reader), so
`current.len() == raw_row_length` does not hold from the moment the header
is parsed; thereafter each completed row keeps `prev.len() = rowlen` and
clears `current`, while a partial run leaves `prev` alone and only appends
the data to `current`. -/
theorem reader_row_buffers :
    (∀ (inf : InflaterFn) (fuel : Nat) (r r2 : PngReader), r.info = none →
        readInfoF inf fuel r = some (.ok r2) →
        r2.prev = List.replicate r2.rowlen 0 ∧ r2.current = r.current) ∧
    (∀ (bpp rowlen : Nat) (prev current data row p c : List Nat), 0 < rowlen →
        processImageData bpp rowlen prev current data = .ok (some row, p, c) →
        p.length = rowlen ∧ c = []) ∧
    (∀ (bpp rowlen : Nat) (prev current data p c : List Nat),
        processImageData bpp rowlen prev current data = .ok (none, p, c) →
        p = prev ∧ c = current ++ data) :=
  ⟨fun inf fuel r r2 hnone h => readInfoF_buffers inf fuel r r2 hnone h,
   fun bpp rowlen prev current data row p c hpos h =>
     processImageData_complete bpp rowlen prev current data row p c hpos h,
   fun bpp rowlen prev current data p c h =>
     processImageData_partial bpp rowlen prev current data p c h⟩

set_option maxRecDepth 40000 in
/-- Claim C9 counterexample: after `read_info` on a concrete stream the
reader has `prev.len() = rowlen = 2` (all zeros) but `current` empty, so
`current.len() ≠ raw_row_length`. -/
theorem reader_current_length_cex :
    readInfoF storeInf 200 (PngReader.new [c9Stream]) = some (.ok rInfo) ∧
    rInfo.prev.length = rInfo.rowlen ∧
    ¬ rInfo.current.length = rInfo.rowlen := by
  refine ⟨by decide, by decide, by decide⟩

set_option maxRecDepth 40000 in
theorem reader_row_buffers_witness :
    (rInfo.prev = List.replicate rInfo.rowlen 0 ∧
      rInfo.current = (PngReader.new [c9Stream]).current) ∧
    (([0, 5] : List Nat).length = 2 ∧ ([] : List Nat) = []) ∧
    (([0, 0] : List Nat) = [0, 0] ∧ ([0] : List Nat) = [] ++ [0]) :=
  ⟨reader_row_buffers.1 storeInf 200 (PngReader.new [c9Stream]) rInfo rfl (by decide),
   reader_row_buffers.2.1 1 2 [0, 0] [] [0, 5] [5] [0, 5] [] (by decide) (by decide),
   reader_row_buffers.2.2 1 2 [0, 0] [] [0] [0, 0] [0] (by decide)⟩
